import Mathlib

/-!
Verification of the bookops-marc library (a MARC21 bibliographic-record
toolkit for two library systems) against its natural-language specification.

The Python sources are shallowly embedded: Python `str` values become Lean
`String`/`List Char`, byte streams become `List Nat` (one entry per byte,
each < 256), fallible constructors return `Option`/`Except`, and the
mutating operations are explicit `Bib → Bib` (or `Bib → Except`) state
transformers.  `pymarc` (the upstream generic MARC library that
bookops-marc builds on) is an external collaborator: only the small part
of its behaviour that the embedded code calls into is modelled (first
matching field / first matching subfield lookup, the reader exception
taxonomy, `BytesIO.read`).  Python string primitives (`strip`, `replace`,
`zfill`, slicing, `in`, `int()`, `float()`) are modelled for the ASCII
inputs this domain uses.
-/

namespace BookopsMarc

/-! ### Python string primitives -/

/-- ASCII whitespace, as recognised by Python's `str.strip()` / `int()` /
`float()` for the ASCII range. -/
def pySpace (c : Char) : Bool :=
  c = ' ' ∨ c = '\t' ∨ c = '\n' ∨ c = '\r' ∨ c = '\x0b' ∨ c = '\x0c'

/-- trim characters satisfying `p` from both ends of a list. -/
def trimEnds (p : Char → Bool) (l : List Char) : List Char :=
  ((l.dropWhile p).reverse.dropWhile p).reverse

/-- Python `str.strip()` (no argument): drop whitespace from both ends. -/
def pyStripList (l : List Char) : List Char :=
  trimEnds pySpace l

def pyStrip (s : String) : String :=
  ⟨pyStripList s.data⟩

/-- Python `str.strip(chars)`: drop characters of the given set from both
ends. -/
def pyStripSetList (set l : List Char) : List Char :=
  trimEnds (set.contains ·) l

def pyStripSet (set : List Char) (s : String) : String :=
  ⟨pyStripSetList set s.data⟩

/-- Python `str.lower()` for the ASCII range. -/
def pyLower (s : String) : String :=
  ⟨s.data.map Char.toLower⟩

/-- Python `str.isnumeric()` restricted to the ASCII range: nonempty and
every character a decimal digit. -/
def pyIsNumeric (s : String) : Bool :=
  s.data ≠ [] ∧ s.data.all Char.isDigit

/-- Python `s.startswith(p)`. -/
def pyStartsWith (s p : String) : Bool :=
  decide (s.data.take p.data.length = p.data)

/-- Python slicing `s[a:b]` with nonnegative bounds. -/
def pySlice (s : String) (a b : Nat) : String :=
  ⟨(s.data.take b).drop a⟩

/-- Python `str.zfill(w)` for unsigned inputs: left-pad with `'0'` to width
`w`. -/
def pyZfill (s : String) (w : Nat) : String :=
  ⟨List.replicate (w - s.length) '0' ++ s.data⟩

/-- numeric value of a decimal digit character -/
def charVal (c : Char) : Nat := c.toNat - 48

/-- digit character of a value `< 10` -/
def valChar (d : Nat) : Char := Char.ofNat (48 + d)

/-- Value of a decimal digit string, most significant digit first: the
semantics of Python `int(s)` on a string of digits. -/
def digitsVal (l : List Char) : Nat :=
  l.foldl (fun a c => 10 * a + charVal c) 0

/-- Python `int(s)` on an all-digit string. -/
def strToNat (s : String) : Nat := digitsVal s.data

/-- Helper for `natToStr`: peel decimal digits of `n`, most significant
first, onto `acc`; `fuel ≥ n` guarantees enough steps.  Structural
recursion on `fuel` keeps the definition kernel-reducible. -/
def natToStrAux : Nat → Nat → List Char → List Char
  | 0, _, acc => acc
  | fuel + 1, n, acc =>
    let c := valChar (n % 10)
    if n / 10 = 0 then c :: acc else natToStrAux fuel (n / 10) (c :: acc)

/-- Python `str(n)` for a natural number (`n + 1` units of fuel always
suffice, and `str(0) = "0"`). -/
def natToStr (n : Nat) : String :=
  ⟨natToStrAux (n + 1) n []⟩

/-! ### local_values.py : location-code slicing (claim C9) -/

/-- `get_branch_code` from `local_values.py`: `location_code[:2]`. -/
def get_branch_code (location_code : String) : String :=
  pySlice location_code 0 2

/-- `get_shelf_audience_code` from `local_values.py`:
`location_code[2].strip()` (an `IndexError` yields `None`, an
all-whitespace result yields `None`). -/
def get_shelf_audience_code (location_code : String) : Option String :=
  match location_code.data.drop 2 with
  | [] => none
  | c :: _ =>
    let audn := pyStrip ⟨[c]⟩
    if audn ≠ "" then some audn else none

/-- `get_shelf_code` from `local_values.py`: `location_code[3:5].strip()`,
with an empty result yielding `None`. -/
def get_shelf_code (location_code : String) : Option String :=
  let shelf := pyStrip (pySlice location_code 3 5)
  if shelf ≠ "" then some shelf else none

/-- Claim C9: for every location-code string, `get_branch_code` returns
characters `[0,2)`; `get_shelf_audience_code` returns character `[2]`
trimmed of whitespace (`none` when absent or whitespace);
`get_shelf_code` returns characters `[3,5)` trimmed (`none` when empty or
absent); all three are total on short inputs.  In particular on `"snj0y"`
they return `"sn"`, `"j"`, `"0y"`, and on `"sn"` they return `"sn"`,
`none`, `none`. -/
theorem locationSlices_spec :
    (∀ s : String, get_branch_code s = ⟨s.data.take 2⟩) ∧
    (∀ s : String, s.data.length ≤ 2 → get_shelf_audience_code s = none) ∧
    (∀ (s : String) (c : Char) (rest : List Char), s.data.drop 2 = c :: rest →
      get_shelf_audience_code s = (if pySpace c then none else some ⟨[c]⟩)) ∧
    (∀ s : String, s.data.length ≤ 3 → get_shelf_code s = none) ∧
    (∀ s : String, get_shelf_code s =
      (if pyStrip (pySlice s 3 5) ≠ "" then some (pyStrip (pySlice s 3 5)) else none)) ∧
    get_branch_code "snj0y" = "sn" ∧ get_shelf_audience_code "snj0y" = some "j" ∧
    get_shelf_code "snj0y" = some "0y" ∧
    get_branch_code "sn" = "sn" ∧ get_shelf_audience_code "sn" = none ∧
    get_shelf_code "sn" = none := by
  refine ⟨fun s => rfl, fun s h => ?_, fun s c rest h => ?_, fun s h => ?_,
    fun s => rfl, by decide, by decide, by decide, by decide, by decide, by decide⟩
  · unfold get_shelf_audience_code
    rw [List.drop_eq_nil_of_le h]
  · unfold get_shelf_audience_code
    rw [h]
    by_cases hc : pySpace c
    · simp [pyStrip, pyStripList, trimEnds, List.dropWhile, hc]
    · simp [pyStrip, pyStripList, trimEnds, List.dropWhile, hc]
      intro habs
      have : ([c] : List Char) = [] := congrArg String.data habs
      exact absurd this (by simp)
  · unfold get_shelf_code
    have h5 : (s.data.take 5).length ≤ 3 := by
      rw [List.length_take]
      exact le_trans (min_le_right _ _) h
    have hdrop : (s.data.take 5).drop 3 = [] := List.drop_eq_nil_of_le h5
    simp [pySlice, hdrop, pyStrip, pyStripList, trimEnds]

/-- Witness for `locationSlices_spec` at concrete inputs. -/
theorem locationSlices_spec_witness :
    get_shelf_audience_code "sn" = none ∧
    get_shelf_audience_code "snj" = some "j" ∧
    get_shelf_code "abc" = none :=
  ⟨locationSlices_spec.2.1 "sn" (by decide),
   by
    have := locationSlices_spec.2.2.1 "snj" 'j' [] (by decide)
    simpa using this,
   locationSlices_spec.2.2.2.1 "abc" (by decide)⟩

/-! ### Python float() literal parsing

`normalize_dewey` validates its cleaned input with `float(class_mark)`.
CPython accepts (ASCII case): surrounding whitespace, an optional sign,
then either `inf`/`infinity`/`nan` (case-insensitive) or a numeral
`digitpart | [digitpart] "." [digitpart]` (at least one digit, `_`
allowed only between digits) with an optional exponent
`("e"|"E") [sign] digitpart`. -/

/-- `(["_"] digit | digit)*` after an initial digit has been consumed:
every character is a digit or an underscore, and every underscore is
immediately followed by a digit. -/
def digTail : List Char → Bool
  | [] => true
  | [c] => c.isDigit
  | c :: d :: ds =>
    if c = '_' then d.isDigit && digTail (d :: ds)
    else c.isDigit && digTail (d :: ds)

/-- Python `digitpart`: nonempty digits with `_` strictly between digits. -/
def digitPart : List Char → Bool
  | [] => false
  | c :: cs => c.isDigit && digTail cs

/-- exponent body after `e`/`E`: optional sign then a digitpart. -/
def expPart : List Char → Bool
  | [] => false
  | c :: r => if c = '+' ∨ c = '-' then digitPart r else digitPart (c :: r)

/-- mantissa: `digitpart | [digitpart] "." [digitpart]`, ≥ 1 digit. -/
def mantissaOk (l : List Char) : Bool :=
  match l.span (· ≠ '.') with
  | (ip, []) => digitPart ip
  | (ip, _ :: fp) =>
    (decide (ip = []) && digitPart fp) || (digitPart ip && decide (fp = [])) ||
      (digitPart ip && digitPart fp)

/-- case-insensitive match of one ASCII letter. -/
def ciIs (c lo up : Char) : Bool := c = lo || c = up

/-- `inf`, `infinity` or `nan`, case-insensitive (ASCII). -/
def isInfNan : List Char → Bool
  | [a, b, c] =>
    (ciIs a 'i' 'I' && ciIs b 'n' 'N' && ciIs c 'f' 'F') ||
      (ciIs a 'n' 'N' && ciIs b 'a' 'A' && ciIs c 'n' 'N')
  | [a, b, c, d, e, f, g, h] =>
    ciIs a 'i' 'I' && ciIs b 'n' 'N' && ciIs c 'f' 'F' && ciIs d 'i' 'I' &&
      ciIs e 'n' 'N' && ciIs f 'i' 'I' && ciIs g 't' 'T' && ciIs h 'y' 'Y'
  | _ => false

/-- drop one optional leading sign character. -/
def dropSign : List Char → List Char
  | [] => []
  | c :: r => if c = '+' ∨ c = '-' then r else c :: r

/-- the part of Python float parsing after whitespace has been stripped. -/
def pyFloatCore (l : List Char) : Bool :=
  isInfNan (dropSign l) ||
    (match (dropSign l).span (fun c => !(c = 'e' || c = 'E')) with
     | (m, []) => mantissaOk m
     | (m, _ :: ex) => mantissaOk m && expPart ex)

/-- Python: `float(s)` succeeds (ASCII model). -/
def pyFloatOk (l : List Char) : Bool :=
  pyFloatCore (pyStripList l)

/-! ### local_values.py : normalize_dewey (claim C10) -/

/-- Python `s.replace(c, "")` for a single character: every occurrence is
removed. -/
def removeCh (x : Char) (l : List Char) : List Char :=
  l.filter (· ≠ x)

/-- Helper for `removeBr`; structural recursion on `fuel` (any
`fuel ≥ l.length` computes the full scan) keeps it kernel-reducible. -/
def removeBrAux : Nat → List Char → List Char
  | 0, l => l
  | _ + 1, [] => []
  | fuel + 1, c :: rest =>
    if c = '[' ∧ rest.take 2 = ['B', ']'] then removeBrAux fuel (rest.drop 2)
    else c :: removeBrAux fuel rest

/-- Python `s.replace("[B]", "")`: left-to-right, non-overlapping removal
of the three-character pattern. -/
def removeBr (l : List Char) : List Char :=
  removeBrAux l.length l

/-- The trailing-zero loop of `normalize_dewey`:
`while len(s) > 4 and s[-1] == "0": s = s[:-1]`, acting on the reversed
character list. -/
def dropZerosRev : List Char → List Char
  | [] => []
  | c :: cs => if c = '0' ∧ 4 ≤ cs.length then dropZerosRev cs else c :: cs

/-- the apostrophe character (codepoint 39). -/
def quoteChar : Char := Char.ofNat 39

/-- the cleaning pipeline of `normalize_dewey`: the five `replace` calls
(`"/"`, `"j"`, `"C"`, `"[B]"`, apostrophe) followed by `strip()`. -/
def deweyClean (l : List Char) : List Char :=
  pyStripList (removeCh quoteChar (removeBr (removeCh 'C' (removeCh 'j' (removeCh '/' l)))))

/-- `normalize_dewey` from `local_values.py`. -/
def normalize_dewey (class_mark : String) : Option String :=
  if pyFloatOk (deweyClean class_mark.data) then
    some ⟨(dropZerosRev (deweyClean class_mark.data).reverse).reverse⟩
  else none

/-! #### Character sets of float-parsable strings -/

/-- the characters that can occur in a Python-float-parsable string
(ASCII): digits, sign, point, underscore, exponent marker, and the
letters of `inf`/`infinity`/`nan` in either case. -/
def floatChar (c : Char) : Bool :=
  c.isDigit || c = '+' || c = '-' || c = '.' || c = '_' || c = 'e' || c = 'E' ||
    c = 'i' || c = 'I' || c = 'n' || c = 'N' || c = 'f' || c = 'F' ||
    c = 'a' || c = 'A' || c = 't' || c = 'T' || c = 'y' || c = 'Y'

theorem floatChar_good (c : Char) (h : floatChar c = true) :
    pySpace c = false ∧ ¬(c = '/' ∨ c = 'j' ∨ c = 'C' ∨ c = quoteChar ∨ c = '[') := by
  constructor
  · cases hps : pySpace c
    · rfl
    · exfalso
      simp only [pySpace, Bool.or_eq_true, decide_eq_true_eq] at hps
      rcases hps with rfl | rfl | rfl | rfl | rfl | rfl <;> revert h <;> decide
  · rintro (rfl | rfl | rfl | rfl | rfl) <;> revert h <;> decide

theorem digTail_chars : ∀ l : List Char, digTail l = true →
    ∀ c ∈ l, floatChar c = true
  | [], _, c, hc => absurd hc (List.not_mem_nil c)
  | [a], h, c, hc => by
    have h' : a.isDigit = true := h
    rcases List.mem_cons.mp hc with rfl | hc
    · simp [floatChar, h']
    · exact absurd hc (List.not_mem_nil c)
  | a :: d :: ds, h, c, hc => by
    rw [digTail] at h
    by_cases ha : a = '_'
    · rw [if_pos ha, Bool.and_eq_true] at h
      rcases List.mem_cons.mp hc with rfl | hc
      · subst ha; decide
      · exact digTail_chars (d :: ds) h.2 c hc
    · rw [if_neg ha, Bool.and_eq_true] at h
      rcases List.mem_cons.mp hc with rfl | hc
      · simp [floatChar, h.1]
      · exact digTail_chars (d :: ds) h.2 c hc

theorem digitPart_chars (l : List Char) (h : digitPart l = true) :
    ∀ c ∈ l, floatChar c = true := by
  cases l with
  | nil => exact absurd h (by decide)
  | cons a as =>
    rw [digitPart, Bool.and_eq_true] at h
    intro c hc
    rcases List.mem_cons.mp hc with rfl | hc
    · simp [floatChar, h.1]
    · exact digTail_chars as h.2 c hc

theorem expPart_chars (l : List Char) (h : expPart l = true) :
    ∀ c ∈ l, floatChar c = true := by
  cases l with
  | nil => exact absurd h (by decide)
  | cons a as =>
    have h2 : expPart (a :: as) =
        if a = '+' ∨ a = '-' then digitPart as else digitPart (a :: as) := rfl
    rw [h2] at h
    intro c hc
    by_cases ha : a = '+' ∨ a = '-'
    · rw [if_pos ha] at h
      rcases List.mem_cons.mp hc with rfl | hc
      · rcases ha with rfl | rfl <;> decide
      · exact digitPart_chars as h c hc
    · rw [if_neg ha] at h
      exact digitPart_chars (a :: as) h c hc

theorem dropWhile_head_false {p : Char → Bool} :
    ∀ {l : List Char} {c : Char} {cs : List Char},
      l.dropWhile p = c :: cs → p c = false
  | [], c, cs, h => by simp at h
  | a :: as, c, cs, h => by
    rw [List.dropWhile_cons] at h
    by_cases ha : p a
    · rw [if_pos ha] at h
      exact dropWhile_head_false h
    · rw [if_neg ha] at h
      injection h with h1 _
      subst h1
      simpa using ha

theorem mantissaOk_chars (l : List Char) (h : mantissaOk l = true) :
    ∀ c ∈ l, floatChar c = true := by
  rcases hdw : List.dropWhile (fun x => decide (x ≠ '.')) l with _ | ⟨d, fp⟩
  · rw [mantissaOk, List.span_eq_take_drop, hdw] at h
    have hsplit : List.takeWhile (fun x => decide (x ≠ '.')) l = l := by
      have hx := List.takeWhile_append_dropWhile
        (p := fun x => decide (x ≠ '.')) (l := l)
      rw [hdw, List.append_nil] at hx
      exact hx
    have h' : digitPart (List.takeWhile (fun x => decide (x ≠ '.')) l) = true := h
    intro c hc
    exact digitPart_chars _ h' c (by rw [hsplit]; exact hc)
  · rw [mantissaOk, List.span_eq_take_drop, hdw] at h
    have hd : d = '.' := by simpa using dropWhile_head_false hdw
    have hsplit : List.takeWhile (fun x => decide (x ≠ '.')) l ++ d :: fp = l := by
      have hx := List.takeWhile_append_dropWhile
        (p := fun x => decide (x ≠ '.')) (l := l)
      rw [hdw] at hx
      exact hx
    have h' : ((decide (List.takeWhile (fun x => decide (x ≠ '.')) l = []) &&
          digitPart fp) ||
        (digitPart (List.takeWhile (fun x => decide (x ≠ '.')) l) &&
          decide (fp = [])) ||
        (digitPart (List.takeWhile (fun x => decide (x ≠ '.')) l) &&
          digitPart fp)) = true := h
    simp only [Bool.or_eq_true, Bool.and_eq_true, decide_eq_true_eq] at h'
    intro c hc
    rw [← hsplit] at hc
    rcases List.mem_append.mp hc with hc | hc
    · rcases h' with (⟨hip, _⟩ | ⟨hip, _⟩) | ⟨hip, _⟩
      · rw [hip] at hc
        exact absurd hc (List.not_mem_nil c)
      · exact digitPart_chars _ hip c hc
      · exact digitPart_chars _ hip c hc
    · rcases List.mem_cons.mp hc with rfl | hc
      · rw [hd]; decide
      · rcases h' with (⟨_, hfp⟩ | ⟨_, hfp⟩) | ⟨_, hfp⟩
        · exact digitPart_chars _ hfp c hc
        · rw [hfp] at hc
          exact absurd hc (List.not_mem_nil c)
        · exact digitPart_chars _ hfp c hc

theorem ciIs_chars {c lo up : Char} (h : ciIs c lo up = true) : c = lo ∨ c = up := by
  simpa [ciIs] using h

theorem isInfNan_chars : ∀ l : List Char, isInfNan l = true →
    ∀ c ∈ l, floatChar c = true
  | [], h => Bool.noConfusion h
  | [_], h => Bool.noConfusion h
  | [_, _], h => Bool.noConfusion h
  | [a, b, c1], h => by
    have h' : ((ciIs a 'i' 'I' && ciIs b 'n' 'N' && ciIs c1 'f' 'F') ||
        (ciIs a 'n' 'N' && ciIs b 'a' 'A' && ciIs c1 'n' 'N')) = true := h
    simp only [Bool.or_eq_true, Bool.and_eq_true] at h'
    intro c hc
    simp only [List.mem_cons, List.not_mem_nil, or_false] at hc
    rcases hc with rfl | rfl | rfl
    · rcases h' with ⟨⟨h1, _⟩, _⟩ | ⟨⟨h1, _⟩, _⟩ <;>
        rcases ciIs_chars h1 with rfl | rfl <;> decide
    · rcases h' with ⟨⟨_, h1⟩, _⟩ | ⟨⟨_, h1⟩, _⟩ <;>
        rcases ciIs_chars h1 with rfl | rfl <;> decide
    · rcases h' with ⟨_, h1⟩ | ⟨_, h1⟩ <;>
        rcases ciIs_chars h1 with rfl | rfl <;> decide
  | [_, _, _, _], h => Bool.noConfusion h
  | [_, _, _, _, _], h => Bool.noConfusion h
  | [_, _, _, _, _, _], h => Bool.noConfusion h
  | [_, _, _, _, _, _, _], h => Bool.noConfusion h
  | [a, b, c1, d, e, f, g, k], h => by
    have h' : (ciIs a 'i' 'I' && ciIs b 'n' 'N' && ciIs c1 'f' 'F' &&
        ciIs d 'i' 'I' && ciIs e 'n' 'N' && ciIs f 'i' 'I' && ciIs g 't' 'T' &&
        ciIs k 'y' 'Y') = true := h
    simp only [Bool.and_eq_true] at h'
    obtain ⟨⟨⟨⟨⟨⟨⟨h1, h2⟩, h3⟩, h4⟩, h5⟩, h6⟩, h7⟩, h8⟩ := h'
    intro c hc
    simp only [List.mem_cons, List.not_mem_nil, or_false] at hc
    rcases hc with rfl | rfl | rfl | rfl | rfl | rfl | rfl | rfl
    · rcases ciIs_chars h1 with rfl | rfl <;> decide
    · rcases ciIs_chars h2 with rfl | rfl <;> decide
    · rcases ciIs_chars h3 with rfl | rfl <;> decide
    · rcases ciIs_chars h4 with rfl | rfl <;> decide
    · rcases ciIs_chars h5 with rfl | rfl <;> decide
    · rcases ciIs_chars h6 with rfl | rfl <;> decide
    · rcases ciIs_chars h7 with rfl | rfl <;> decide
    · rcases ciIs_chars h8 with rfl | rfl <;> decide
  | _ :: _ :: _ :: _ :: _ :: _ :: _ :: _ :: _ :: _, h => Bool.noConfusion h

theorem pyFloatCore_chars (l : List Char) (h : pyFloatCore l = true) :
    ∀ c ∈ l, floatChar c = true := by
  have core : ∀ c ∈ dropSign l, floatChar c = true := by
    rcases hdw : List.dropWhile (fun c => !(decide (c = 'e') || decide (c = 'E')))
      (dropSign l) with _ | ⟨d, ex⟩
    · rw [pyFloatCore, List.span_eq_take_drop, hdw] at h
      rcases Bool.or_eq_true _ _ |>.mp h with h1 | h1
      · exact isInfNan_chars _ h1
      · have hsplit : List.takeWhile
            (fun c => !(decide (c = 'e') || decide (c = 'E'))) (dropSign l) =
            dropSign l := by
          have hx := List.takeWhile_append_dropWhile
            (p := fun c => !(decide (c = 'e') || decide (c = 'E')))
            (l := dropSign l)
          rw [hdw, List.append_nil] at hx
          exact hx
        intro c hc
        exact mantissaOk_chars _ h1 c (by rw [hsplit]; exact hc)
    · rw [pyFloatCore, List.span_eq_take_drop, hdw] at h
      rcases Bool.or_eq_true _ _ |>.mp h with h1 | h1
      · exact isInfNan_chars _ h1
      · have hsplit : List.takeWhile
            (fun c => !(decide (c = 'e') || decide (c = 'E'))) (dropSign l) ++
            d :: ex = dropSign l := by
          have hx := List.takeWhile_append_dropWhile
            (p := fun c => !(decide (c = 'e') || decide (c = 'E')))
            (l := dropSign l)
          rw [hdw] at hx
          exact hx
        rw [Bool.and_eq_true] at h1
        have hd : floatChar d = true := by
          have hx := dropWhile_head_false hdw
          simp only [Bool.not_eq_false', Bool.or_eq_true, decide_eq_true_eq] at hx
          rcases hx with rfl | rfl <;> decide
        intro c hc
        rw [← hsplit] at hc
        rcases List.mem_append.mp hc with hc | hc
        · exact mantissaOk_chars _ h1.1 c hc
        · rcases List.mem_cons.mp hc with rfl | hc
          · exact hd
          · exact expPart_chars _ h1.2 c hc
  intro c hc
  cases l with
  | nil => exact absurd hc (List.not_mem_nil c)
  | cons a as =>
    have hds : dropSign (a :: as) =
        if a = '+' ∨ a = '-' then as else a :: as := rfl
    rw [hds] at core
    by_cases ha : a = '+' ∨ a = '-'
    · rw [if_pos ha] at core
      rcases List.mem_cons.mp hc with rfl | hc
      · rcases ha with rfl | rfl <;> decide
      · exact core c hc
    · rw [if_neg ha] at core
      exact core c hc

/-! #### strip, trailing-zero and cleaning fixed points -/

theorem pyStripList_eq_rdrop (l : List Char) :
    pyStripList l = List.rdropWhile pySpace (l.dropWhile pySpace) := rfl

theorem pyStripList_idem (l : List Char) :
    pyStripList (pyStripList l) = pyStripList l := by
  have key : ∀ m : List Char, List.dropWhile pySpace m = m →
      pyStripList (List.rdropWhile pySpace m) = List.rdropWhile pySpace m := by
    intro m hm
    rw [pyStripList_eq_rdrop]
    have hd : (List.rdropWhile pySpace m).dropWhile pySpace =
        List.rdropWhile pySpace m := by
      rcases hsc : List.rdropWhile pySpace m with _ | ⟨c, cs⟩
      · rfl
      · rcases (hsc ▸ List.rdropWhile_prefix pySpace m) with ⟨t, ht⟩
        have hmc : List.dropWhile pySpace m = c :: (cs ++ t) := by
          rw [hm, ← ht]; simp
        have hc : pySpace c = false := dropWhile_head_false hmc
        rw [List.dropWhile_cons, hc]; simp
    rw [hd, List.rdropWhile_idempotent]
  rw [pyStripList_eq_rdrop l]
  exact key _ (List.dropWhile_idempotent _ _)

theorem dropZerosRev_idem : ∀ r : List Char,
    dropZerosRev (dropZerosRev r) = dropZerosRev r
  | [] => rfl
  | c :: cs => by
    by_cases h : c = '0' ∧ 4 ≤ cs.length
    · rw [dropZerosRev, if_pos h]
      exact dropZerosRev_idem cs
    · rw [dropZerosRev, if_neg h, dropZerosRev, if_neg h]

theorem mem_of_mem_dropZerosRev : ∀ (r : List Char) (c : Char),
    c ∈ dropZerosRev r → c ∈ r
  | [], c, hc => absurd hc (by simp [dropZerosRev])
  | a :: cs, c, hc => by
    by_cases h : a = '0' ∧ 4 ≤ cs.length
    · rw [dropZerosRev, if_pos h] at hc
      exact List.mem_cons_of_mem a (mem_of_mem_dropZerosRev cs c hc)
    · rwa [dropZerosRev, if_neg h] at hc

theorem removeCh_eq_self {x : Char} {l : List Char} (h : ∀ c ∈ l, c ≠ x) :
    removeCh x l = l :=
  List.filter_eq_self.mpr fun a ha => by simpa using h a ha

theorem removeBrAux_eq_self : ∀ (fuel : Nat) (l : List Char),
    (∀ c ∈ l, c ≠ '[') → removeBrAux fuel l = l
  | 0, _, _ => rfl
  | _ + 1, [], _ => rfl
  | fuel + 1, c :: rest, h => by
    rw [removeBrAux, if_neg (by simp [h c (List.mem_cons_self c rest)]),
      removeBrAux_eq_self fuel rest fun d hd => h d (List.mem_cons_of_mem c hd)]

theorem stripList_eq_self {l : List Char} (h : ∀ c ∈ l, pySpace c = false) :
    pyStripList l = l := by
  have h1 : ∀ m : List Char, (∀ c ∈ m, pySpace c = false) →
      m.dropWhile pySpace = m := by
    intro m hm
    cases m with
    | nil => rfl
    | cons c cs => rw [List.dropWhile_cons, hm c (List.mem_cons_self c cs)]; simp
  unfold pyStripList trimEnds
  rw [h1 l h, h1 l.reverse fun c hc => h c (List.mem_reverse.mp hc),
    List.reverse_reverse]

theorem normalize_dewey_output_chars (x v : String)
    (h : normalize_dewey x = some v) : ∀ c ∈ v.data, floatChar c = true := by
  rw [normalize_dewey] at h
  by_cases hfl : pyFloatOk (deweyClean x.data) = true
  · simp only [hfl, if_true] at h
    have hv : v.data = (dropZerosRev (deweyClean x.data).reverse).reverse := by
      cases h; rfl
    have hw : pyFloatCore (deweyClean x.data) = true := by
      have : pyStripList (deweyClean x.data) = deweyClean x.data := by
        rw [deweyClean]
        exact pyStripList_idem _
      rw [pyFloatOk, this] at hfl
      exact hfl
    intro c hc
    rw [hv] at hc
    exact pyFloatCore_chars _ hw c
      (List.mem_reverse.mp (List.mem_reverse.mp
        (List.mem_reverse.mpr (mem_of_mem_dropZerosRev _ c
          (List.mem_reverse.mp hc))) |> fun h' => h') |> fun h' => h')
  · rw [if_neg hfl] at h
    exact absurd h (by simp)

/-- Claim C10 counterexample: the Dewey normalizer is not idempotent on its
own output.  On `"100e0"` (float-parsable via exponent notation) it returns
`"100e"` — the trailing-zero strip removed the exponent digit — and
re-normalizing `"100e"` yields `none`, not `"100e"`. -/
theorem normalize_dewey_not_idem :
    normalize_dewey "100e0" = some "100e" ∧ normalize_dewey "100e" = none := by
  constructor <;> decide

/-- Claim C10 (amended): the Dewey normalizer is idempotent on every output
that itself still parses as a Python float: if `normalize_dewey x = some v`
and `v` is float-parsable, then `normalize_dewey v = some v`.  (Outputs can
fail to be float-parsable only when exponent or underscore notation meets
the trailing-zero strip, as in `"100e0" → "100e"`.) -/
theorem normalize_dewey_idem (x v : String)
    (h1 : normalize_dewey x = some v) (h2 : pyFloatOk v.data = true) :
    normalize_dewey v = some v := by
  have hch := normalize_dewey_output_chars x v h1
  have hgood := fun c hc => floatChar_good c (hch c hc)
  have hclean : deweyClean v.data = v.data := by
    rw [deweyClean,
      removeCh_eq_self (x := '/') (fun c hc h => (hgood c hc).2 (Or.inl h)),
      removeCh_eq_self (x := 'j')
        (fun c hc h => (hgood c hc).2 (Or.inr (Or.inl h))),
      removeCh_eq_self (x := 'C')
        (fun c hc h => (hgood c hc).2 (Or.inr (Or.inr (Or.inl h)))),
      removeBr, removeBrAux_eq_self _ _
        (fun c hc h => (hgood c hc).2 (Or.inr (Or.inr (Or.inr (Or.inr h))))),
      removeCh_eq_self (x := quoteChar)
        (fun c hc h => (hgood c hc).2 (Or.inr (Or.inr (Or.inr (Or.inl h))))),
      stripList_eq_self (fun c hc => (hgood c hc).1)]
  have hv : v.data = (dropZerosRev (deweyClean x.data).reverse).reverse := by
    rw [normalize_dewey] at h1
    by_cases hfl : pyFloatOk (deweyClean x.data) = true
    · simp only [hfl, if_true] at h1
      cases h1; rfl
    · rw [if_neg hfl] at h1
      exact absurd h1 (by simp)
  have hfix : dropZerosRev v.data.reverse = v.data.reverse := by
    rw [hv, List.reverse_reverse, dropZerosRev_idem]
  rw [normalize_dewey]
  simp only [hclean, h2, if_true]
  rw [hfix, List.reverse_reverse]

/-- Witness for `normalize_dewey_idem`: `normalize_dewey "j306.760" = some
"306.76"`, and renormalizing the output is the identity. -/
theorem normalize_dewey_idem_witness : normalize_dewey "306.76" = some "306.76" :=
  normalize_dewey_idem "j306.760" "306.76" (by decide) (by decide)

/-! ### models.py : OclcNumber (claims C4, C5)

`OclcNumber` wraps an identifier string.  The value setter normalises and
validates it (`ValueError` on failure, modelled as `none`); `with_prefix`
and `without_prefix` convert between the prefixed and unprefixed forms.
`strToNat`/`natToStr` model Python `int(s)`/`str(n)`; the code only applies
`int()` to all-digit strings (guaranteed by the validity check), which is
the domain on which `strToNat` is faithful. -/

/-- the character set `"oclmn()"` / `"()oclnm"` used with `str.strip` in
`OclcNumber` (both spellings denote the same set). -/
def oclcStripSet : List Char := ['o', 'c', 'l', 'm', 'n', '(', ')']

/-- `OclcNumber.has_prefix`. -/
def hasPrefixOclc (v : String) : Bool :=
  pyStartsWith (pyLower v) "ocm" || pyStartsWith (pyLower v) "ocn" ||
    pyStartsWith (pyLower v) "on" || pyStartsWith (pyLower v) "(ocolc)"

/-- `OclcNumber.is_valid` (string case; the `int`/`None` cases of the
Python signature are outside the `String`-typed embedding).
`str_value = value.lower()` and `num_value = str_value.strip("oclmn()")`
are inlined; note that in the Python source `num_value.isnumeric()`
conjoins only with the `ocm` clause (operator precedence). -/
def isValidOclc (value : String) : Bool :=
  if value = "" then false
  else if pyIsNumeric (pyLower value) ∧ 0 < strToNat value then true
  else if (pyIsNumeric (pyStripSet oclcStripSet (pyLower value)) ∧
        pyStartsWith (pyLower value) "ocm" ∧
        (pyStripSet oclcStripSet (pyLower value)).length = 8) ∨
      (pyStartsWith (pyLower value) "ocn" ∧
        (pyStripSet oclcStripSet (pyLower value)).length = 9) ∨
      (pyStartsWith (pyLower value) "on" ∧
        10 ≤ (pyStripSet oclcStripSet (pyLower value)).length) ∨
      pyStartsWith (pyLower value) "(ocolc)" then true
  else false

/-- the `OclcNumber` value setter: `"(ocolc)"`-prefixed strings are stored
as-is, anything else lower-cased and stripped. -/
def oclcStore (value : String) : String :=
  if pyStartsWith (pyLower value) "(ocolc)" then value
  else pyStrip (pyLower value)

/-- `OclcNumber(value)`: store then validate; `ValueError` becomes `none`. -/
def oclcMake (value : String) : Option String :=
  if isValidOclc (oclcStore value) then some (oclcStore value) else none

/-- the branch of `with_prefix` on the canonicalised digit string `num`. -/
def withPrefixNum (num : String) : String :=
  if num.length ≤ 8 ∧ 1 ≤ num.length then
    "ocm" ++ pyZfill (natToStr (strToNat num)) 8
  else if num.length = 9 then "ocn" ++ natToStr (strToNat num)
  else "on" ++ natToStr (strToNat num)

/-- `OclcNumber.with_prefix` (acting on the stored value). -/
def withPrefix (v : String) : String :=
  if hasPrefixOclc v ∧ ¬ pyStartsWith (pyLower v) "(ocolc)" then v
  else withPrefixNum (natToStr (strToNat (pyStripSet oclcStripSet (pyLower v))))

/-- `OclcNumber.without_prefix` (acting on the stored value). -/
def withoutPrefix (v : String) : String :=
  if ¬ hasPrefixOclc v then v
  else natToStr (strToNat (pyStripSet oclcStripSet (pyLower v)))

/-! #### Decimal strings: `str(int(s))` round trips -/

theorem isDigit_toNat {c : Char} (h : c.isDigit = true) :
    48 ≤ c.toNat ∧ c.toNat ≤ 57 := by
  rw [Char.isDigit, Bool.and_eq_true, decide_eq_true_eq, decide_eq_true_eq] at h
  exact ⟨UInt32.le_toNat_of_le (by norm_num [UInt32.size]) h.1,
    UInt32.toNat_le_of_le (by norm_num [UInt32.size]) h.2⟩

theorem charVal_lt {c : Char} (h : c.isDigit = true) : charVal c < 10 := by
  have := isDigit_toNat h
  rw [charVal]
  omega

theorem valChar_charVal {c : Char} (h : c.isDigit = true) : valChar (charVal c) = c := by
  have hb := isDigit_toNat h
  rw [valChar, charVal, show 48 + (c.toNat - 48) = c.toNat by omega,
    Char.ofNat_toNat]

theorem charVal_valChar {d : Nat} (h : d < 10) : charVal (valChar d) = d := by
  interval_cases d <;> decide

theorem valChar_isDigit {d : Nat} (h : d < 10) : (valChar d).isDigit = true := by
  interval_cases d <;> decide

theorem valChar_eq_zeroChar {d : Nat} (h : d < 10) : valChar d = '0' ↔ d = 0 := by
  interval_cases d <;> decide

theorem digitsVal_aux (l : List Char) : ∀ a : Nat,
    l.foldl (fun a c => 10 * a + charVal c) a =
      a * 10 ^ l.length + Nat.ofDigits 10 (l.map charVal).reverse := by
  induction l with
  | nil => intro a; simp
  | cons c l ih =>
    intro a
    rw [List.foldl_cons, ih]
    simp only [List.map_cons, List.reverse_cons, List.length_cons,
      Nat.ofDigits_append, Nat.ofDigits_singleton, List.length_reverse,
      List.length_map]
    ring

theorem digitsVal_eq_ofDigits (l : List Char) :
    digitsVal l = Nat.ofDigits 10 (l.map charVal).reverse := by
  rw [digitsVal, digitsVal_aux]
  simp

theorem digitsVal_replicate_zero (k : Nat) (l : List Char) :
    digitsVal (List.replicate k '0' ++ l) = digitsVal l := by
  induction k with
  | zero => simp
  | succ k ih =>
    rw [List.replicate_succ, List.cons_append, digitsVal, List.foldl_cons]
    exact ih

theorem natToStrAux_eq : ∀ (fuel n : Nat) (acc : List Char), 0 < n → n ≤ fuel →
    natToStrAux fuel n acc = ((Nat.digits 10 n).map valChar).reverse ++ acc
  | 0, n, _, hpos, hle => absurd (Nat.lt_of_lt_of_le hpos hle) (by simp)
  | fuel + 1, n, acc, hpos, hle => by
    rw [natToStrAux]
    rw [Nat.digits_def' (by norm_num : 1 < 10) hpos]
    by_cases hq : n / 10 = 0
    · rw [if_pos hq, hq]
      simp
    · rw [if_neg hq]
      rw [natToStrAux_eq fuel (n / 10) _ (Nat.pos_of_ne_zero hq)
        (by
          have := Nat.div_lt_self hpos (by norm_num : 1 < 10)
          omega)]
      simp

theorem natToStr_data {n : Nat} (h : 0 < n) :
    (natToStr n).data = ((Nat.digits 10 n).map valChar).reverse := by
  rw [natToStr, natToStrAux_eq (n + 1) n [] h (Nat.le_succ n), List.append_nil]

theorem strToNat_natToStr (n : Nat) : strToNat (natToStr n) = n := by
  rcases Nat.eq_zero_or_pos n with rfl | hpos
  · decide
  · rw [strToNat, natToStr_data hpos, digitsVal_eq_ofDigits, List.map_reverse,
      List.reverse_reverse, List.map_map]
    have hmap : (Nat.digits 10 n).map (charVal ∘ valChar) = Nat.digits 10 n := by
      apply List.map_congr_left ?_ |>.trans (List.map_id _)
      intro d hd
      exact charVal_valChar (Nat.digits_lt_base (by norm_num) hd)
    rw [hmap, Nat.ofDigits_digits]

theorem charVal_ne_zero {c : Char} (hd : c.isDigit = true) (h0 : c ≠ '0') :
    charVal c ≠ 0 := by
  have hb := isDigit_toNat hd
  intro hz
  apply h0
  have : c.toNat = 48 := by rw [charVal] at hz; omega
  rw [← Char.ofNat_toNat c, this]

theorem natToStr_length_pos (n : Nat) : 1 ≤ (natToStr n).length := by
  rcases Nat.eq_zero_or_pos n with rfl | hpos
  · decide
  · show 1 ≤ (natToStr n).data.length
    rw [natToStr_data hpos, List.length_reverse, List.length_map]
    have hnn : Nat.digits 10 n ≠ [] :=
      Nat.digits_ne_nil_iff_ne_zero.mpr (Nat.pos_iff_ne_zero.mp hpos)
    exact List.length_pos.mpr hnn

/-- `str(int(l))` is the identity on canonical decimal strings (nonempty,
all digits, no leading zero). -/
theorem natToStr_digitsVal (l : List Char) (hne : l ≠ [])
    (hd : ∀ c ∈ l, c.isDigit = true) (h0 : l.head? ≠ some '0') :
    (natToStr (digitsVal l)).data = l := by
  have hD : (l.map charVal).reverse ≠ [] := by
    simp [hne]
  have hlt : ∀ d ∈ (l.map charVal).reverse, d < 10 := by
    intro d hdm
    rw [List.mem_reverse, List.mem_map] at hdm
    obtain ⟨c, hc, rfl⟩ := hdm
    exact charVal_lt (hd c hc)
  have hlast : (l.map charVal).reverse.getLast hD ≠ 0 := by
    rcases l with _ | ⟨c, cs⟩
    · exact absurd rfl hne
    · have hh : c ≠ '0' := by
        intro heq
        exact h0 (by rw [heq]; rfl)
      rw [List.getLast_reverse]
      simp only [List.map_cons, List.head_cons]
      exact charVal_ne_zero (hd c (List.mem_cons_self c cs)) hh
  have hdig := Nat.digits_ofDigits 10 (by norm_num) _ hlt (fun _ => hlast)
  have hpos : 0 < digitsVal l := by
    rw [digitsVal_eq_ofDigits]
    rcases Nat.eq_zero_or_pos (Nat.ofDigits 10 (l.map charVal).reverse) with hz | hp
    · exfalso
      rw [hz, Nat.digits_zero] at hdig
      exact hD hdig.symm
    · exact hp
  rw [natToStr_data hpos, digitsVal_eq_ofDigits, hdig, List.map_reverse,
    List.reverse_reverse, List.map_map]
  apply List.map_congr_left ?_ |>.trans (List.map_id _)
  intro c hc
  exact valChar_charVal (hd c hc)

/-! #### Character and trimming facts for the OclcNumber proofs -/

theorem digit_ne {c : Char} (h : c.isDigit = true) {x : Char}
    (hx : x.isDigit = false) : c ≠ x := by
  intro heq
  rw [heq, hx] at h
  exact Bool.noConfusion h

theorem toLower_eq_self_of_lt {c : Char} (h : c.toNat < 65) : c.toLower = c := by
  have hdef : c.toLower =
      if c.toNat ≥ 65 ∧ c.toNat ≤ 90 then Char.ofNat (c.toNat + 32) else c := rfl
  rw [hdef, if_neg (by omega)]

theorem digit_toLower {c : Char} (h : c.isDigit = true) : c.toLower = c :=
  toLower_eq_self_of_lt (by have := isDigit_toNat h; omega)

theorem digit_pySpace_false {c : Char} (h : c.isDigit = true) :
    pySpace c = false := by
  rw [Bool.eq_false_iff]
  intro hsp
  simp only [pySpace, Bool.or_eq_true, decide_eq_true_eq] at hsp
  rcases hsp with rfl | rfl | rfl | rfl | rfl | rfl <;> revert h <;> decide

theorem digit_contains_false {c : Char} (h : c.isDigit = true) :
    oclcStripSet.contains c = false := by
  rw [Bool.eq_false_iff]
  intro hcon
  have hmem : c ∈ oclcStripSet := by simpa using hcon
  simp only [oclcStripSet, List.mem_cons, List.not_mem_nil, or_false] at hmem
  rcases hmem with rfl | rfl | rfl | rfl | rfl | rfl | rfl <;> revert h <;> decide

theorem dropWhile_eq_self_of_false {p : Char → Bool} {l : List Char}
    (h : ∀ c ∈ l, p c = false) : l.dropWhile p = l := by
  cases l with
  | nil => rfl
  | cons c cs =>
    rw [List.dropWhile_cons, h c (List.mem_cons_self c cs)]
    simp

theorem trimEnds_eq_self {p : Char → Bool} {l : List Char}
    (h : ∀ c ∈ l, p c = false) : trimEnds p l = l := by
  rw [trimEnds, dropWhile_eq_self_of_false h,
    dropWhile_eq_self_of_false fun c hc => h c (List.mem_reverse.mp hc),
    List.reverse_reverse]

theorem trimEnds_append {p : Char → Bool} {pre mid : List Char}
    (hpre : ∀ c ∈ pre, p c = true) (hmid : ∀ c ∈ mid, p c = false) :
    trimEnds p (pre ++ mid) = mid := by
  have h1 : (pre ++ mid).dropWhile p = mid := by
    induction pre with
    | nil => exact dropWhile_eq_self_of_false hmid
    | cons a pr ih =>
      rw [List.cons_append, List.dropWhile_cons,
        hpre a (List.mem_cons_self a pr)]
      simp only [if_true]
      exact ih fun c hc => hpre c (List.mem_cons_of_mem a hc)
  rw [trimEnds, h1,
    dropWhile_eq_self_of_false fun c hc => hmid c (List.mem_reverse.mp hc),
    List.reverse_reverse]

theorem map_toLower_fix {l : List Char} (h : ∀ c ∈ l, c.toLower = c) :
    l.map Char.toLower = l :=
  (List.map_congr_left h).trans (List.map_id l)

theorem pyStartsWith_append (pd rest : List Char) :
    pyStartsWith ⟨pd ++ rest⟩ ⟨pd⟩ = true := by
  simp [pyStartsWith, List.take_left]

theorem pyStartsWith_cons_ne {c p0 : Char} (h : c ≠ p0) (rest ptl : List Char) :
    pyStartsWith ⟨c :: rest⟩ ⟨p0 :: ptl⟩ = false := by
  simp [pyStartsWith, List.take_succ_cons, h]

/-- Basic facts about a nonempty all-digit identifier string: it is stored
unchanged, it validates, it has no OCLC prefix, and lower-casing and
`strip("oclmn()")` leave it unchanged. -/
theorem digitString_basics (v : String) (hne : v.data ≠ [])
    (hdig : ∀ c ∈ v.data, c.isDigit = true) (hpos : 0 < strToNat v) :
    pyLower v = v ∧ pyStripSet oclcStripSet v = v ∧ hasPrefixOclc v = false ∧
      pyStartsWith (pyLower v) "(ocolc)" = false ∧ oclcStore v = v ∧
      isValidOclc v = true ∧ oclcMake v = some v := by
  have hlow : pyLower v = v := by
    show (⟨v.data.map Char.toLower⟩ : String) = v
    rw [map_toLower_fix fun c hc => digit_toLower (hdig c hc)]
  have hstripset : pyStripSet oclcStripSet v = v := by
    show (⟨trimEnds (oclcStripSet.contains ·) v.data⟩ : String) = v
    rw [trimEnds_eq_self fun c hc => digit_contains_false (hdig c hc)]
  obtain ⟨c0, rest, hvdata⟩ : ∃ c0 rest, v.data = c0 :: rest := by
    rcases hv : v.data with _ | ⟨c0, rest⟩
    · exact absurd hv hne
    · exact ⟨c0, rest, rfl⟩
  have hc0 : c0.isDigit = true := hdig c0 (by rw [hvdata]; exact List.mem_cons_self _ _)
  have hveq : v = ⟨c0 :: rest⟩ := by
    rw [← hvdata]
  have hnoc : pyStartsWith (pyLower v) "(ocolc)" = false := by
    rw [hlow, hveq]
    exact pyStartsWith_cons_ne (digit_ne hc0 (by decide)) _ _
  have hnopre : hasPrefixOclc v = false := by
    rw [hasPrefixOclc, hlow, hveq]
    rw [show ("ocm" : String) = ⟨['o', 'c', 'm']⟩ from rfl,
      show ("ocn" : String) = ⟨['o', 'c', 'n']⟩ from rfl,
      show ("on" : String) = ⟨['o', 'n']⟩ from rfl,
      show ("(ocolc)" : String) = ⟨['(', 'o', 'c', 'o', 'l', 'c', ')']⟩ from rfl]
    rw [pyStartsWith_cons_ne (digit_ne hc0 (by decide)) _ _,
      pyStartsWith_cons_ne (digit_ne hc0 (by decide)) _ _,
      pyStartsWith_cons_ne (digit_ne hc0 (by decide)) _ _,
      pyStartsWith_cons_ne (digit_ne hc0 (by decide)) _ _]
    rfl
  have hstore : oclcStore v = v := by
    rw [oclcStore, if_neg (by rw [hnoc]; exact Bool.noConfusion), hlow]
    show (⟨trimEnds pySpace v.data⟩ : String) = v
    rw [trimEnds_eq_self fun c hc => digit_pySpace_false (hdig c hc)]
  have hvalid : isValidOclc v = true := by
    rw [isValidOclc]
    rw [if_neg (show ¬v = "" from fun he => hne (congrArg String.data he))]
    rw [if_pos]
    constructor
    · rw [hlow]
      simp only [pyIsNumeric, List.all_eq_true, decide_eq_true_eq]
      exact ⟨hne, fun c hc => hdig c hc⟩
    · exact hpos
  refine ⟨hlow, hstripset, hnopre, hnoc, hstore, hvalid, ?_⟩
  rw [oclcMake, hstore, hvalid]
  simp

/-- Claim C4 counterexample: digit counts are measured on the canonical
(leading-zero-stripped) form of the value.  The nine-digit string
`"000000001"` is a validly constructed `OclcNumber`, but `with_prefix`
returns the zero-padded `"ocm"` form, not `"ocn"` followed by the nine
digits as the claim requires. -/
theorem withPrefix_nine_digits_cex :
    oclcMake "000000001" = some "000000001" ∧
    withPrefix "000000001" = "ocm00000001" ∧
    "ocm00000001" ≠ "ocn" ++ "000000001" := by
  refine ⟨by decide, by decide, by decide⟩

/-- Claim C4 (amended): for every validly constructed `OclcNumber` holding
an unprefixed digit string `v`, `with_prefix` selects its prefix by the
digit count of the canonical form `str(int(v))` (which strips leading
zeros): 1–8 digits → `"ocm"` + the number zero-padded to 8 digits,
9 digits → `"ocn"` + digits, ≥ 10 digits → `"on"` + digits.  On canonical
inputs this coincides with the original claim, in particular
`OclcNumber("1").with_prefix = "ocm00000001"`,
`OclcNumber("123456789").with_prefix = "ocn123456789"` and
`OclcNumber("1234567890").with_prefix = "on1234567890"`. -/
theorem withPrefix_spec (v : String) (hne : v.data ≠ [])
    (hdig : ∀ c ∈ v.data, c.isDigit = true) (hpos : 0 < strToNat v) :
    oclcMake v = some v ∧
    ((natToStr (strToNat v)).length ≤ 8 →
      withPrefix v = "ocm" ++ pyZfill (natToStr (strToNat v)) 8) ∧
    ((natToStr (strToNat v)).length = 9 →
      withPrefix v = "ocn" ++ natToStr (strToNat v)) ∧
    (10 ≤ (natToStr (strToNat v)).length →
      withPrefix v = "on" ++ natToStr (strToNat v)) := by
  obtain ⟨hlow, hstripset, hnopre, hnoc, hstore, hvalid, hmake⟩ :=
    digitString_basics v hne hdig hpos
  have hwp : withPrefix v = withPrefixNum (natToStr (strToNat v)) := by
    rw [withPrefix, if_neg (fun hcond => by
      rw [hnopre] at hcond
      exact Bool.noConfusion hcond.1), hlow, hstripset]
  refine ⟨hmake, fun h8 => ?_, fun h9 => ?_, fun h10 => ?_⟩
  · rw [hwp, withPrefixNum, if_pos ⟨h8, natToStr_length_pos _⟩,
      strToNat_natToStr]
  · rw [hwp, withPrefixNum, if_neg (fun hcond => by omega), if_pos h9,
      strToNat_natToStr]
  · rw [hwp, withPrefixNum, if_neg (fun hcond => by omega),
      if_neg (fun hcond => by omega), strToNat_natToStr]

/-- Facts about a string `pre ++ mid` made of one of the three lower-case
OCLC prefixes followed by digits: it is stored unchanged, has a prefix,
and `strip("oclmn()")` isolates the digits. -/
theorem prefixed_digit_string (pre mid : List Char)
    (hpre : pre = ['o', 'c', 'm'] ∨ pre = ['o', 'c', 'n'] ∨ pre = ['o', 'n'])
    (hmidne : mid ≠ []) (hmiddig : ∀ c ∈ mid, c.isDigit = true) :
    pyLower ⟨pre ++ mid⟩ = ⟨pre ++ mid⟩ ∧
    oclcStore ⟨pre ++ mid⟩ = ⟨pre ++ mid⟩ ∧
    pyStripSet oclcStripSet ⟨pre ++ mid⟩ = ⟨mid⟩ ∧
    hasPrefixOclc ⟨pre ++ mid⟩ = true ∧
    pyIsNumeric (pyLower ⟨pre ++ mid⟩) = false ∧
    withoutPrefix ⟨pre ++ mid⟩ = natToStr (digitsVal mid) := by
  have hprelow : ∀ c ∈ pre, c.toLower = c := by
    intro c hc
    rcases hpre with rfl | rfl | rfl <;>
      simp only [List.mem_cons, List.not_mem_nil, or_false] at hc <;>
      first
        | (rcases hc with rfl | rfl | rfl <;> decide)
        | (rcases hc with rfl | rfl <;> decide)
  have hpreset : ∀ c ∈ pre, oclcStripSet.contains c = true := by
    intro c hc
    rcases hpre with rfl | rfl | rfl <;>
      simp only [List.mem_cons, List.not_mem_nil, or_false] at hc <;>
      first
        | (rcases hc with rfl | rfl | rfl <;> decide)
        | (rcases hc with rfl | rfl <;> decide)
  have hpresp : ∀ c ∈ pre, pySpace c = false := by
    intro c hc
    rcases hpre with rfl | rfl | rfl <;>
      simp only [List.mem_cons, List.not_mem_nil, or_false] at hc <;>
      first
        | (rcases hc with rfl | rfl | rfl <;> decide)
        | (rcases hc with rfl | rfl <;> decide)
  have hlow : pyLower ⟨pre ++ mid⟩ = ⟨pre ++ mid⟩ := by
    show (⟨(pre ++ mid).map Char.toLower⟩ : String) = ⟨pre ++ mid⟩
    rw [map_toLower_fix]
    intro c hc
    rcases List.mem_append.mp hc with hc | hc
    · exact hprelow c hc
    · exact digit_toLower (hmiddig c hc)
  have hheado : ∃ tl, pre ++ mid = 'o' :: tl := by
    rcases hpre with rfl | rfl | rfl <;> exact ⟨_, rfl⟩
  obtain ⟨tl, htl⟩ := hheado
  have hnoc : pyStartsWith (pyLower ⟨pre ++ mid⟩) "(ocolc)" = false := by
    rw [hlow, htl]
    exact pyStartsWith_cons_ne (by decide) _ _
  have hstore : oclcStore ⟨pre ++ mid⟩ = ⟨pre ++ mid⟩ := by
    rw [oclcStore, if_neg (by rw [hnoc]; exact Bool.noConfusion), hlow]
    show (⟨trimEnds pySpace (pre ++ mid)⟩ : String) = ⟨pre ++ mid⟩
    rw [trimEnds_eq_self]
    intro c hc
    rcases List.mem_append.mp hc with hc | hc
    · exact hpresp c hc
    · exact digit_pySpace_false (hmiddig c hc)
  have hstripset : pyStripSet oclcStripSet ⟨pre ++ mid⟩ = ⟨mid⟩ := by
    show (⟨trimEnds (oclcStripSet.contains ·) (pre ++ mid)⟩ : String) = ⟨mid⟩
    rw [trimEnds_append hpreset]
    intro c hc
    exact digit_contains_false (hmiddig c hc)
  have hhaspre : hasPrefixOclc ⟨pre ++ mid⟩ = true := by
    rw [hasPrefixOclc, hlow]
    rcases hpre with rfl | rfl | rfl
    · rw [show ("ocm" : String) = ⟨['o', 'c', 'm']⟩ from rfl,
        pyStartsWith_append]
      simp
    · rw [show ("ocn" : String) = ⟨['o', 'c', 'n']⟩ from rfl,
        pyStartsWith_append]
      simp
    · rw [show ("on" : String) = ⟨['o', 'n']⟩ from rfl, pyStartsWith_append]
      simp
  have hnotnum : pyIsNumeric (pyLower ⟨pre ++ mid⟩) = false := by
    rw [hlow, Bool.eq_false_iff]
    intro hnum
    simp only [pyIsNumeric, List.all_eq_true, decide_eq_true_eq,
      Bool.and_eq_true] at hnum
    have := hnum.2 'o' (by rw [htl]; exact List.mem_cons_self _ _)
    exact absurd this (by decide)
  refine ⟨hlow, hstore, hstripset, hhaspre, hnotnum, ?_⟩
  rw [withoutPrefix, if_neg (fun hn => hn (by rw [hhaspre])), hlow,
    hstripset]
  rfl

/-- Claim C5 counterexample: the round trip through the prefix is not the
identity on digit strings with leading zeros: for `d = "01"`,
`OclcNumber(d).with_prefix = "ocm00000001"` and
`OclcNumber("ocm00000001").without_prefix = "1" ≠ "01"`. -/
theorem oclc_roundTrip_cex :
    oclcMake "01" = some "01" ∧ withPrefix "01" = "ocm00000001" ∧
    oclcMake "ocm00000001" = some "ocm00000001" ∧
    withoutPrefix "ocm00000001" = "1" ∧ "1" ≠ "01" := by
  refine ⟨by decide, by decide, by decide, by decide, by decide⟩

/-- Claim C5 (amended): for every valid unprefixed digit string `d`
without leading zeros, the round trip through the prefix is the identity:
`OclcNumber(d)` constructs successfully, its `with_prefix` form constructs
an `OclcNumber` successfully, and taking `without_prefix` of that yields
`d` again. -/
theorem oclc_roundTrip (d : String) (hne : d.data ≠ [])
    (hdig : ∀ c ∈ d.data, c.isDigit = true) (h0 : d.data.head? ≠ some '0') :
    oclcMake d = some d ∧
    oclcMake (withPrefix d) = some (withPrefix d) ∧
    withoutPrefix (withPrefix d) = d := by
  have hcanon : natToStr (strToNat d) = d :=
    congrArg String.mk (natToStr_digitsVal d.data hne hdig h0)
  have hpos : 0 < strToNat d := by
    rcases Nat.eq_zero_or_pos (strToNat d) with hz | hp
    · exfalso
      rw [hz] at hcanon
      have hd0 : d.data = ['0'] := by rw [← hcanon]; rfl
      exact h0 (by rw [hd0]; rfl)
    · exact hp
  obtain ⟨hlow, hstripset, hnopre, hnoc, hstore, hvalid, hmake⟩ :=
    digitString_basics d hne hdig hpos
  have hwp : withPrefix d = withPrefixNum d := by
    rw [withPrefix, if_neg (fun hcond => by
      rw [hnopre] at hcond
      exact Bool.noConfusion hcond.1), hlow, hstripset, hcanon]
  have hlen1 : 1 ≤ d.length := List.length_pos.mpr hne
  have hmake_p : ∀ p : String, oclcStore p = p → isValidOclc p = true →
      oclcMake p = some p := by
    intro p h1 h2
    rw [oclcMake, h1, h2]
    simp
  by_cases h8 : d.length ≤ 8
  · -- 1–8 digits: "ocm" + zfill
    have hval : withPrefixNum d = "ocm" ++ pyZfill d 8 := by
      rw [withPrefixNum, if_pos ⟨h8, hlen1⟩, hcanon]
    have hpdata : ("ocm" ++ pyZfill d 8).data =
        ['o', 'c', 'm'] ++ (List.replicate (8 - d.length) '0' ++ d.data) := by
      rfl
    have hmid_ne : List.replicate (8 - d.length) '0' ++ d.data ≠ [] := by
      simp [hne]
    have hmid_dig : ∀ c ∈ List.replicate (8 - d.length) '0' ++ d.data,
        c.isDigit = true := by
      intro c hc
      rcases List.mem_append.mp hc with hc | hc
      · rw [List.eq_of_mem_replicate hc]; decide
      · exact hdig c hc
    have hmid_len : (List.replicate (8 - d.length) '0' ++ d.data).length = 8 := by
      rw [List.length_append, List.length_replicate]
      have : d.data.length = d.length := rfl
      omega
    have hP := prefixed_digit_string ['o', 'c', 'm'] _ (Or.inl rfl)
      hmid_ne hmid_dig
    have hpeq : ("ocm" ++ pyZfill d 8) =
        (⟨['o', 'c', 'm'] ++ (List.replicate (8 - d.length) '0' ++ d.data)⟩ :
          String) := congrArg String.mk hpdata
    obtain ⟨hplow, hpstore, hpstrip, hppre, hpnotnum, hpwo⟩ := hP
    have hb1 : pyIsNumeric (pyStripSet oclcStripSet (pyLower
        (⟨['o', 'c', 'm'] ++ (List.replicate (8 - d.length) '0' ++ d.data)⟩ :
          String))) = true := by
      rw [hplow, hpstrip]
      simp only [pyIsNumeric, List.all_eq_true, decide_eq_true_eq,
        Bool.and_eq_true]
      exact ⟨by simpa using hmid_ne, hmid_dig⟩
    have hb2 : pyStartsWith (pyLower
        (⟨['o', 'c', 'm'] ++ (List.replicate (8 - d.length) '0' ++ d.data)⟩ :
          String)) "ocm" = true := by
      rw [hplow, show ("ocm" : String) = ⟨['o', 'c', 'm']⟩ from rfl]
      exact pyStartsWith_append _ _
    have hb3 : (pyStripSet oclcStripSet (pyLower
        (⟨['o', 'c', 'm'] ++ (List.replicate (8 - d.length) '0' ++ d.data)⟩ :
          String))).length = 8 := by
      rw [hplow, hpstrip]
      exact hmid_len
    have hvalidp : isValidOclc
        (⟨['o', 'c', 'm'] ++ (List.replicate (8 - d.length) '0' ++ d.data)⟩ :
          String) = true := by
      rw [isValidOclc, if_neg (fun he => by
        have := congrArg String.data he
        simp at this)]
      rw [if_neg (fun hcond => by
        rw [hpnotnum] at hcond
        exact Bool.noConfusion hcond.1)]
      rw [if_pos (Or.inl ⟨hb1, hb2, hb3⟩)]
    have hwo : withoutPrefix
        (⟨['o', 'c', 'm'] ++ (List.replicate (8 - d.length) '0' ++ d.data)⟩ :
          String) = d := by
      rw [hpwo, digitsVal_replicate_zero]
      exact hcanon
    refine ⟨hmake, ?_, ?_⟩
    · rw [hwp, hval, hpeq]
      exact hmake_p _ hpstore hvalidp
    · rw [hwp, hval, hpeq, hwo]
  · by_cases h9 : d.length = 9
    · -- 9 digits: "ocn" + digits
      have hval : withPrefixNum d = "ocn" ++ d := by
        rw [withPrefixNum, if_neg (fun hcond => by omega), if_pos h9, hcanon]
      have hpdata : ("ocn" ++ d).data = ['o', 'c', 'n'] ++ d.data := rfl
      have hP := prefixed_digit_string ['o', 'c', 'n'] d.data
        (Or.inr (Or.inl rfl)) hne hdig
      have hpeq : ("ocn" ++ d) = (⟨['o', 'c', 'n'] ++ d.data⟩ : String) :=
        congrArg String.mk hpdata
      obtain ⟨hplow, hpstore, hpstrip, hppre, hpnotnum, hpwo⟩ := hP
      have hb2 : pyStartsWith (pyLower (⟨['o', 'c', 'n'] ++ d.data⟩ : String))
          "ocn" = true := by
        rw [hplow, show ("ocn" : String) = ⟨['o', 'c', 'n']⟩ from rfl]
        exact pyStartsWith_append _ _
      have hb3 : (pyStripSet oclcStripSet (pyLower
          (⟨['o', 'c', 'n'] ++ d.data⟩ : String))).length = 9 := by
        rw [hplow, hpstrip]
        exact h9
      have hvalidp : isValidOclc (⟨['o', 'c', 'n'] ++ d.data⟩ : String) =
          true := by
        rw [isValidOclc, if_neg (fun he => by
          have := congrArg String.data he
          simp at this)]
        rw [if_neg (fun hcond => by
          rw [hpnotnum] at hcond
          exact Bool.noConfusion hcond.1)]
        rw [if_pos (Or.inr (Or.inl ⟨hb2, hb3⟩))]
      have hwo : withoutPrefix (⟨['o', 'c', 'n'] ++ d.data⟩ : String) = d := by
        rw [hpwo]
        exact hcanon
      refine ⟨hmake, ?_, ?_⟩
      · rw [hwp, hval, hpeq]
        exact hmake_p _ hpstore hvalidp
      · rw [hwp, hval, hpeq, hwo]
    · -- ≥ 10 digits: "on" + digits
      have h10 : 10 ≤ d.length := by omega
      have hval : withPrefixNum d = "on" ++ d := by
        rw [withPrefixNum, if_neg (fun hcond => by omega),
          if_neg (fun hcond => by omega), hcanon]
      have hpdata : ("on" ++ d).data = ['o', 'n'] ++ d.data := rfl
      have hP := prefixed_digit_string ['o', 'n'] d.data
        (Or.inr (Or.inr rfl)) hne hdig
      have hpeq : ("on" ++ d) = (⟨['o', 'n'] ++ d.data⟩ : String) :=
        congrArg String.mk hpdata
      obtain ⟨hplow, hpstore, hpstrip, hppre, hpnotnum, hpwo⟩ := hP
      have hb2 : pyStartsWith (pyLower (⟨['o', 'n'] ++ d.data⟩ : String))
          "on" = true := by
        rw [hplow, show ("on" : String) = ⟨['o', 'n']⟩ from rfl]
        exact pyStartsWith_append _ _
      have hb3 : 10 ≤ (pyStripSet oclcStripSet (pyLower
          (⟨['o', 'n'] ++ d.data⟩ : String))).length := by
        rw [hplow, hpstrip]
        exact h10
      have hvalidp : isValidOclc (⟨['o', 'n'] ++ d.data⟩ : String) = true := by
        rw [isValidOclc, if_neg (fun he => by
          have := congrArg String.data he
          simp at this)]
        rw [if_neg (fun hcond => by
          rw [hpnotnum] at hcond
          exact Bool.noConfusion hcond.1)]
        rw [if_pos (Or.inr (Or.inr (Or.inl ⟨hb2, hb3⟩)))]
      have hwo : withoutPrefix (⟨['o', 'n'] ++ d.data⟩ : String) = d := by
        rw [hpwo]
        exact hcanon
      refine ⟨hmake, ?_, ?_⟩
      · rw [hwp, hval, hpeq]
        exact hmake_p _ hpstore hvalidp
      · rw [hwp, hval, hpeq, hwo]

/-- Witness for `oclc_roundTrip` at `d = "12345"`. -/
theorem oclc_roundTrip_witness :
    oclcMake "12345" = some "12345" ∧
    oclcMake (withPrefix "12345") = some (withPrefix "12345") ∧
    withoutPrefix (withPrefix "12345") = "12345" :=
  oclc_roundTrip "12345" (by decide) (by decide) (by decide)

/-- Witness for `withPrefix_spec` at the three claimed examples. -/
theorem withPrefix_spec_witness :
    withPrefix "1" = "ocm00000001" ∧ withPrefix "123456789" = "ocn123456789" ∧
    withPrefix "1234567890" = "on1234567890" :=
  ⟨((withPrefix_spec "1" (by decide) (by decide) (by decide)).2.1
      (by decide)).trans (by decide),
   ((withPrefix_spec "123456789" (by decide) (by decide) (by decide)).2.2.1
      (by decide)).trans (by decide),
   ((withPrefix_spec "1234567890" (by decide) (by decide) (by decide)).2.2.2
      (by decide)).trans (by decide)⟩

/-! ### The record model (pymarc collaborator) and bib.py

A `pymarc.Field` carries a tag, two indicator characters, an ordered
subfield list (variable fields) and a data string (control fields).
`Field.get(code, default)` returns the value of the first subfield with
the given code; `Record.get(tag)` returns the first field with the tag.
Fields are compared by value (for the one membership test below this
agrees with Python's identity semantics, since the lists compared hold
the same field objects). -/

instance {ε α : Type} [DecidableEq ε] [DecidableEq α] :
    DecidableEq (Except ε α) := fun
  | .ok a, .ok b =>
    if h : a = b then .isTrue (by rw [h]) else .isFalse (by simp [h])
  | .error e, .error f =>
    if h : e = f then .isTrue (by rw [h]) else .isFalse (by simp [h])
  | .ok _, .error _ => .isFalse (by simp)
  | .error _, .ok _ => .isFalse (by simp)

structure MarcField where
  tag : String
  ind1 : String
  ind2 : String
  data : String
  subfields : List (String × String)
  deriving DecidableEq

/-- pymarc `Field.get(code, None)`. -/
def fieldGet (f : MarcField) (code : String) : Option String :=
  (f.subfields.find? (fun p => p.1 = code)).map (·.2)

/-- a `Bib` (bib.py): a pymarc `Record` plus the library discriminator. -/
structure Bib where
  library : String
  leader : String
  fields : List MarcField
  deriving DecidableEq

/-- `Bib.control_number`: the stripped data of the first `001` field, when
present and nonempty. -/
def Bib.control_number (b : Bib) : Option String :=
  match b.fields.find? (fun f => f.tag = "001") with
  | some f => if f.data ≠ "" then some (pyStrip f.data) else none
  | none => none

/-- `Bib.overdrive_number`: `037 $a` stripped, provided `037 $b` equals
`"OverDrive, Inc."`. -/
def Bib.overdrive_number (b : Bib) : Option String :=
  match b.fields.find? (fun f => f.tag = "037") with
  | none => none
  | some f =>
    match fieldGet f "a" with
    | none => none
    | some a =>
      if fieldGet f "b" = some "OverDrive, Inc." then some (pyStrip a)
      else none

/-- `Bib.item_fields`: `949` fields with indicators `(" ", "1")`, plus —
for BPL records with no OverDrive number — every `960` field. -/
def Bib.item_fields (b : Bib) : List MarcField :=
  b.fields.filter fun f =>
    if f.tag = "949" ∧ f.ind1 = " " ∧ f.ind2 = "1" then true
    else if f.tag = "960" ∧ b.library = "bpl" ∧ b.overdrive_number = none then
      true
    else false

/-- `models.Order`: a `960` field plus the field that immediately follows
it in the record (`None` when the `960` is the record's last field). -/
structure Order where
  field : MarcField
  followingField : Option MarcField
  deriving DecidableEq

/-- `Order.venNotes`: subfield `h` of the following field — raw, with no
normalization — exactly when that field's tag is `961`. -/
def Order.venNotes (o : Order) : Option String :=
  match o.followingField with
  | some g => if g.tag = "961" then fieldGet g "h" else none
  | none => none

/-- The iteration of `Bib.orders`, which walks the record with the shared
`pos` cursor of `Bib.__iter__` / `Bib.__next__`: when the field at index
`i` is under scrutiny the cursor has already advanced, so
`self.fields[self.pos]` is the field at `i + 1` (`IndexError` → `None`).
For a non-BPL record the guard
`self.library == "bpl" and field in self.item_fields` short-circuits, the
cursor is untouched and the scan visits every field.  For a BPL record
reaching a `960`, the guard evaluates `self.item_fields`, whose own
`for field in self` loop resets the shared `pos` to `0` and leaves it at
`len(self.fields)`; back in the outer loop the next `__next__` call then
raises `StopIteration`, so the scan ends right after this first `960`,
having skipped it when it is an item field and appended it otherwise. -/
def ordersAux (b : Bib) : List MarcField → Nat → List Order
  | [], _ => []
  | f :: rest, i =>
    if f.tag = "960" then
      if b.library = "bpl" then
        if f ∈ b.item_fields then []
        else [⟨f, b.fields.get? (i + 1)⟩]
      else ⟨f, b.fields.get? (i + 1)⟩ :: ordersAux b rest (i + 1)
    else ordersAux b rest (i + 1)

/-- `Bib.orders`. -/
def Bib.orders (b : Bib) : List Order :=
  ordersAux b b.fields 0

/-- The specification's description of order extraction for a non-BPL
record: enumerate the fields with their document-order index, keep every
`960`, and pair it with the field at the next index. -/
def ordersSpec (b : Bib) : List Order :=
  b.fields.enum.filterMap fun p =>
    if p.2.tag = "960" then some ⟨p.2, b.fields.get? (p.1 + 1)⟩ else none

/-- The specification's description of order extraction for a BPL record:
the scan ends at the first `960`.  When the record has no OverDrive
number, that `960` is an item field and is skipped, so there is no order
at all, however many `960` fields the record holds; when the record has
an OverDrive number, the result is the single order made of the first
`960` and the field at the next index. -/
def bplOrdersSpec (b : Bib) : List Order :=
  match b.fields.enum.find? (fun p => p.2.tag = "960") with
  | none => []
  | some p =>
    if b.overdrive_number = none then []
    else [⟨p.2, b.fields.get? (p.1 + 1)⟩]

/-- order extraction as specified, by library. -/
def ordersSpecFull (b : Bib) : List Order :=
  if b.library = "bpl" then bplOrdersSpec b else ordersSpec b

/-- `Bib.sort_orders`; `BookopsMarcError` is modelled as `Except.error`.
The Python guard is `sort not in "ascending,descending"` — a substring
test, not a membership test in a pair of literals. -/
def containsSeg (needle : List Char) : List Char → Bool
  | [] => decide (needle = [])
  | c :: t => needle.isPrefixOf (c :: t) || containsSeg needle t

def Bib.sort_orders (b : Bib) (sort : String) : Except String (List Order) :=
  if ¬ containsSeg sort.data "ascending,descending".data then
    Except.error "Invalid 'sort' argument was passed."
  else if sort = "descending" then Except.ok b.orders.reverse
  else Except.ok b.orders

/-- replace the data of the first `001` field (`self["001"].data = ...`). -/
def updateFirst001 : List MarcField → String → List MarcField
  | [], _ => []
  | f :: rest, d =>
    if f.tag = "001" then { f with data := d } :: rest
    else f :: updateFirst001 rest d

/-- `Bib.normalize_oclc_control_number`: a mutating operation — rewrites
the first `001` field's data to the prefixed (BPL) or unprefixed (NYPL)
canonical form when it is a valid OCLC number. -/
def Bib.normalize_oclc_control_number (b : Bib) : Except String Bib :=
  if ¬(b.library = "nypl" ∨ b.library = "bpl") then
    Except.error "Not defined library argument to apply the correct practice."
  else
    match b.control_number with
    | none => Except.ok b
    | some controlNo =>
      if controlNo = "" ∨ ¬ isValidOclc controlNo then Except.ok b
      else if b.library = "bpl" then
        Except.ok { b with
          fields := updateFirst001 b.fields (withPrefix (oclcStore controlNo)) }
      else
        Except.ok { b with
          fields := updateFirst001 b.fields (withoutPrefix (oclcStore controlNo)) }

/-- `item.Item` attribute projections (`field.get(code)`, empty string is
falsy and yields `None`). -/
def truthyGet (f : MarcField) (code : String) : Option String :=
  match fieldGet f code with
  | some s => if s ≠ "" then some s else none
  | none => none

def Item.barcode (f : MarcField) : Option String := truthyGet f "i"

def Item.call_no (f : MarcField) : Option String := truthyGet f "a"

def Item.price (f : MarcField) : Option String := truthyGet f "p"

def Item.location (f : MarcField) : Option String := truthyGet f "l"

def Item.item_status (f : MarcField) : Option String := truthyGet f "s"

/-! ### Claim C3 : order extraction pairing -/

/-- A `960` field of a BPL record is an item field exactly when the record
has no OverDrive number (the `949` arm of the filter cannot match a `960`,
and the `960` arm is the remaining condition). -/
theorem mem_item_fields_iff (b : Bib) (f : MarcField) (hf : f ∈ b.fields)
    (ht : f.tag = "960") (hb : b.library = "bpl") :
    f ∈ b.item_fields ↔ b.overdrive_number = none := by
  simp only [Bib.item_fields, List.mem_filter]
  constructor
  · rintro ⟨-, hp⟩
    by_cases h1 : f.tag = "949" ∧ f.ind1 = " " ∧ f.ind2 = "1"
    · rw [ht] at h1
      exact absurd h1.1 (by decide)
    · rw [if_neg h1] at hp
      by_cases h2 : f.tag = "960" ∧ b.library = "bpl" ∧ b.overdrive_number = none
      · exact h2.2.2
      · rw [if_neg h2] at hp
        exact absurd hp (by decide)
  · intro hod
    refine ⟨hf, ?_⟩
    rw [if_neg (fun h1 => by
        rw [ht] at h1
        exact absurd h1.1 (by decide)), if_pos ⟨ht, hb, hod⟩]

theorem ordersAux_bpl (b : Bib) (hb : b.library = "bpl") :
    ∀ (l : List MarcField) (i : Nat), (∀ f, f ∈ l → f ∈ b.fields) →
    ordersAux b l i =
      match (l.enumFrom i).find? (fun p => p.2.tag = "960") with
      | none => []
      | some p =>
        if b.overdrive_number = none then []
        else [⟨p.2, b.fields.get? (p.1 + 1)⟩]
  | [], _, _ => rfl
  | f :: rest, i, hl => by
    by_cases ht : f.tag = "960"
    · rw [ordersAux, if_pos ht, if_pos hb]
      have hfind : ((f :: rest).enumFrom i).find?
          (fun p => decide (p.2.tag = "960")) = some (i, f) := by
        rw [List.enumFrom_cons]
        exact List.find?_cons_of_pos _ (by simpa using ht)
      rw [hfind]
      have hmem := mem_item_fields_iff b f
        (hl f (List.mem_cons_self f rest)) ht hb
      by_cases hod : b.overdrive_number = none
      · rw [if_pos (hmem.mpr hod)]
        exact (if_pos hod).symm
      · rw [if_neg (fun hm => hod (hmem.mp hm))]
        exact (if_neg hod).symm
    · rw [ordersAux, if_neg ht]
      have hfind : ((f :: rest).enumFrom i).find?
          (fun p => decide (p.2.tag = "960")) =
          (rest.enumFrom (i + 1)).find? (fun p => decide (p.2.tag = "960")) := by
        rw [List.enumFrom_cons]
        exact List.find?_cons_of_neg _ (by simpa using ht)
      rw [hfind]
      exact ordersAux_bpl b hb rest (i + 1)
        (fun g hg => hl g (List.mem_cons_of_mem f hg))

theorem ordersAux_nonbpl (b : Bib) (hb : ¬ b.library = "bpl") :
    ∀ (l : List MarcField) (i : Nat),
    ordersAux b l i = (l.enumFrom i).filterMap fun p =>
      if p.2.tag = "960" then some ⟨p.2, b.fields.get? (p.1 + 1)⟩ else none
  | [], _ => rfl
  | f :: rest, i => by
    rw [ordersAux, List.enumFrom_cons, List.filterMap_cons,
      ordersAux_nonbpl b hb rest (i + 1)]
    by_cases ht : f.tag = "960"
    · rw [if_pos ht, if_neg hb, if_pos ht]
    · rw [if_neg ht, if_neg ht]

/-- the first BPL `960` field of the C3 counterexample records -/
def cexField3 : MarcField := ⟨"960", " ", " ", "", [("z", ".o10000010")]⟩

/-- a second `960` field -/
def cexField3b : MarcField := ⟨"960", " ", " ", "", [("z", ".o10000020")]⟩

/-- an `037` OverDrive Reserve ID field -/
def cexField3od : MarcField :=
  ⟨"037", " ", " ", "", [("a", "12345ABC"), ("b", "OverDrive, Inc.")]⟩

/-- a BPL record with one `960` field and no OverDrive number -/
def cexBib3 : Bib := ⟨"bpl", "", [cexField3]⟩

/-- a BPL record with an OverDrive number and two `960` fields -/
def cexBib3od : Bib := ⟨"bpl", "", [cexField3od, cexField3, cexField3b]⟩

/-- Claim C3 counterexample: `orders` does not build one `Order` per `960`
field of the record.  For a BPL record with no OverDrive number the first
`960` is an item field and is skipped, after which the exhausted shared
cursor ends the scan: one `960`, zero orders.  For a BPL record with an
OverDrive number nothing is skipped, but evaluating `item_fields` inside
the loop still exhausts the cursor: two `960` fields, exactly one order —
the first `960` with its following field. -/
theorem orders_bpl_skip_cex :
    (cexBib3.fields.filter fun f => f.tag = "960").length = 1 ∧
    cexBib3.orders.length = 0 ∧
    (cexBib3od.fields.filter fun f => f.tag = "960").length = 2 ∧
    cexBib3od.orders = [⟨cexField3, some cexField3b⟩] := by
  refine ⟨by decide, by decide, by decide, by decide⟩

/-- Claim C3 (amended): `orders` walks the record with the shared `pos`
cursor.  For a non-BPL record the scan visits every field and builds one
`Order` per `960` in document order, pairing it with the field at the next
index (`none` when the `960` is last).  For a BPL record the guard
`field in self.item_fields` evaluates `item_fields`, whose own
`for field in self` loop resets and exhausts the shared cursor, so the
scan always ends at the first `960`: with no OverDrive number that `960`
is an item field and is skipped — zero orders however many `960` fields
the record has; with an OverDrive number the result is exactly one order,
the first `960` paired with the field at the next index.  `venNotes`
returns the following field's subfield `h` raw exactly when that field's
tag is `"961"`, and `none` (without error) when the following field has
another tag or there is no following field. -/
theorem orders_pairing_spec (b : Bib) :
    b.orders = ordersSpecFull b ∧
    (∀ f g : MarcField, (Order.mk f (some g)).venNotes =
      (if g.tag = "961" then fieldGet g "h" else none)) ∧
    (∀ f : MarcField, (Order.mk f none).venNotes = none) := by
  refine ⟨?_, fun _ _ => rfl, fun _ => rfl⟩
  by_cases hb : b.library = "bpl"
  · have h1 : ordersSpecFull b = bplOrdersSpec b := by
      rw [ordersSpecFull, if_pos hb]
    rw [h1]
    exact ordersAux_bpl b hb b.fields 0 (fun _ hf => hf)
  · have h1 : ordersSpecFull b = ordersSpec b := by
      rw [ordersSpecFull, if_neg hb]
    rw [h1]
    exact ordersAux_nonbpl b hb b.fields 0

/-! ### Claim C6 : sort_orders argument validation -/

/-- an NYPL record with two `960` fields (two orders) -/
def cexBib6 : Bib :=
  ⟨"nypl", "", [⟨"960", " ", " ", "", [("z", ".o10000010")]⟩,
    ⟨"960", " ", " ", "", [("z", ".o10000020")]⟩]⟩

/-- Claim C6: `sort_orders` guards its argument with
`sort not in "ascending,descending"`, a substring test.  The two intended
literals work and `"foo"` raises, but any other substring of the guard
string — `"asc"`, the empty string, `"ing,desc"` — is accepted and
returns the ascending order list instead of raising the usage error. -/
theorem sort_orders_substring_bug :
    cexBib6.sort_orders "ascending" = Except.ok cexBib6.orders ∧
    cexBib6.sort_orders "descending" = Except.ok cexBib6.orders.reverse ∧
    cexBib6.sort_orders "foo" =
      Except.error "Invalid 'sort' argument was passed." ∧
    cexBib6.sort_orders "asc" = Except.ok cexBib6.orders ∧
    cexBib6.sort_orders "" = Except.ok cexBib6.orders ∧
    cexBib6.sort_orders "ing,desc" = Except.ok cexBib6.orders := by
  refine ⟨by decide, by decide, by decide, by decide, by decide, by decide⟩

/-! ### Claim C7 : which operations mutate the record -/

theorem updateFirst001_parts : ∀ (fs : List MarcField) (d : String) (i : Nat),
    ((updateFirst001 fs d).get? i).map MarcField.tag =
      (fs.get? i).map MarcField.tag ∧
    ((updateFirst001 fs d).get? i).map MarcField.ind1 =
      (fs.get? i).map MarcField.ind1 ∧
    ((updateFirst001 fs d).get? i).map MarcField.ind2 =
      (fs.get? i).map MarcField.ind2 ∧
    ((updateFirst001 fs d).get? i).map MarcField.subfields =
      (fs.get? i).map MarcField.subfields
  | [], _, _ => ⟨rfl, rfl, rfl, rfl⟩
  | f :: rest, d, i => by
    rw [updateFirst001]
    by_cases hf : f.tag = "001"
    · rw [if_pos hf]
      cases i with
      | zero => exact ⟨rfl, rfl, rfl, rfl⟩
      | succ j => exact ⟨rfl, rfl, rfl, rfl⟩
    · rw [if_neg hf]
      cases i with
      | zero => exact ⟨rfl, rfl, rfl, rfl⟩
      | succ j => exact updateFirst001_parts rest d j

theorem updateFirst001_length : ∀ (fs : List MarcField) (d : String),
    (updateFirst001 fs d).length = fs.length
  | [], _ => rfl
  | f :: rest, d => by
    rw [updateFirst001]
    by_cases hf : f.tag = "001"
    · rw [if_pos hf]
      rfl
    · rw [if_neg hf]
      simp [updateFirst001_length rest d]

theorem updateFirst001_non001 : ∀ (fs : List MarcField) (d : String) (i : Nat)
    (f : MarcField), fs.get? i = some f → f.tag ≠ "001" →
    (updateFirst001 fs d).get? i = some f
  | [], _, _, _, hf, _ => by simp at hf
  | g :: rest, d, i, f, hf, ht => by
    rw [updateFirst001]
    by_cases hg : g.tag = "001"
    · rw [if_pos hg]
      cases i with
      | zero =>
        exfalso
        simp only [List.get?_cons_zero, Option.some.injEq] at hf
        rw [← hf] at ht
        exact ht hg
      | succ j => exact hf
    · rw [if_neg hg]
      cases i with
      | zero => exact hf
      | succ j =>
        simp only [List.get?_cons_succ] at hf ⊢
        exact updateFirst001_non001 rest d j f hf ht

/-- a BPL record whose `001` holds a valid OCLC number -/
def cexBib7 : Bib :=
  ⟨"bpl", "ldr", [⟨"001", "", "", "1", []⟩,
    ⟨"100", "1", " ", "", [("a", "Adams")]⟩]⟩

/-- Claim C7 counterexample: `remove_unsupported_subjects` is not the only
`Bib` operation with a side effect on the record:
`normalize_oclc_control_number` rewrites the first `001` field's data
(here `"1"` becomes `"ocm00000001"`), changing the field list. -/
theorem normalize_oclc_mutates_cex :
    cexBib7.normalize_oclc_control_number = Except.ok
      ⟨"bpl", "ldr", [⟨"001", "", "", "ocm00000001", []⟩,
        ⟨"100", "1", " ", "", [("a", "Adams")]⟩]⟩ ∧
    (⟨"bpl", "ldr", [⟨"001", "", "", "ocm00000001", []⟩,
        ⟨"100", "1", " ", "", [("a", "Adams")]⟩]⟩ : Bib).fields ≠
      cexBib7.fields := by
  constructor <;> decide

/-- Claim C7 (amended): both `remove_unsupported_subjects` and
`normalize_oclc_control_number` mutate the record; every other operation
is read-only.  `normalize_oclc_control_number`'s side effect is limited to
the data of the first `001` field: the leader, the number and order of
fields, every field's tag, indicators and subfields, and every field
other than the first `001` are unchanged. -/
theorem normalize_oclc_frame (b : Bib)
    (h : b.library = "nypl" ∨ b.library = "bpl") :
    ∃ fs, b.normalize_oclc_control_number =
        Except.ok ⟨b.library, b.leader, fs⟩ ∧
      fs.length = b.fields.length ∧
      (∀ i, (fs.get? i).map MarcField.tag =
          (b.fields.get? i).map MarcField.tag ∧
        (fs.get? i).map MarcField.ind1 =
          (b.fields.get? i).map MarcField.ind1 ∧
        (fs.get? i).map MarcField.ind2 =
          (b.fields.get? i).map MarcField.ind2 ∧
        (fs.get? i).map MarcField.subfields =
          (b.fields.get? i).map MarcField.subfields) ∧
      (∀ i f, b.fields.get? i = some f → f.tag ≠ "001" →
        fs.get? i = some f) := by
  have hsame : ∀ r : Except String Bib, r = Except.ok b →
      ∃ fs, r = Except.ok ⟨b.library, b.leader, fs⟩ ∧
        fs.length = b.fields.length ∧
        (∀ i, (fs.get? i).map MarcField.tag =
            (b.fields.get? i).map MarcField.tag ∧
          (fs.get? i).map MarcField.ind1 =
            (b.fields.get? i).map MarcField.ind1 ∧
          (fs.get? i).map MarcField.ind2 =
            (b.fields.get? i).map MarcField.ind2 ∧
          (fs.get? i).map MarcField.subfields =
            (b.fields.get? i).map MarcField.subfields) ∧
        (∀ i f, b.fields.get? i = some f → f.tag ≠ "001" →
          fs.get? i = some f) := by
    intro r hr
    exact ⟨b.fields, hr, rfl, fun i => ⟨rfl, rfl, rfl, rfl⟩,
      fun i f hf _ => hf⟩
  have hupd : ∀ d : String,
      ∃ fs, (Except.ok (Bib.mk b.library b.leader (updateFirst001 b.fields d)) :
            Except String Bib) =
          Except.ok (⟨b.library, b.leader, fs⟩ : Bib) ∧
        fs.length = b.fields.length ∧
        (∀ i, (fs.get? i).map MarcField.tag =
            (b.fields.get? i).map MarcField.tag ∧
          (fs.get? i).map MarcField.ind1 =
            (b.fields.get? i).map MarcField.ind1 ∧
          (fs.get? i).map MarcField.ind2 =
            (b.fields.get? i).map MarcField.ind2 ∧
          (fs.get? i).map MarcField.subfields =
            (b.fields.get? i).map MarcField.subfields) ∧
        (∀ i f, b.fields.get? i = some f → f.tag ≠ "001" →
          fs.get? i = some f) := by
    intro d
    exact ⟨updateFirst001 b.fields d, rfl, updateFirst001_length b.fields d,
      fun i => updateFirst001_parts b.fields d i,
      fun i f hf ht => updateFirst001_non001 b.fields d i f hf ht⟩
  rw [Bib.normalize_oclc_control_number, if_neg (fun hn => hn h)]
  rcases hcn : b.control_number with _ | c
  · exact hsame _ rfl
  · by_cases hv : c = "" ∨ ¬ isValidOclc c = true
    · refine hsame _ ?_
      show (if c = "" ∨ ¬ isValidOclc c = true then
          (Except.ok b : Except String Bib)
        else if b.library = "bpl" then
          Except.ok { b with
            fields := updateFirst001 b.fields (withPrefix (oclcStore c)) }
        else
          Except.ok { b with
            fields := updateFirst001 b.fields (withoutPrefix (oclcStore c)) }) =
        Except.ok b
      rw [if_pos hv]
    · by_cases hb : b.library = "bpl"
      · obtain ⟨fs, h1, h2, h3, h4⟩ := hupd (withPrefix (oclcStore c))
        refine ⟨fs, ?_, h2, h3, h4⟩
        show (if c = "" ∨ ¬ isValidOclc c = true then
            (Except.ok b : Except String Bib)
          else if b.library = "bpl" then
            Except.ok { b with
              fields := updateFirst001 b.fields (withPrefix (oclcStore c)) }
          else
            Except.ok { b with
              fields := updateFirst001 b.fields (withoutPrefix (oclcStore c)) }) =
          Except.ok ⟨b.library, b.leader, fs⟩
        rw [if_neg hv, if_pos hb]
        exact h1
      · obtain ⟨fs, h1, h2, h3, h4⟩ := hupd (withoutPrefix (oclcStore c))
        refine ⟨fs, ?_, h2, h3, h4⟩
        show (if c = "" ∨ ¬ isValidOclc c = true then
            (Except.ok b : Except String Bib)
          else if b.library = "bpl" then
            Except.ok { b with
              fields := updateFirst001 b.fields (withPrefix (oclcStore c)) }
          else
            Except.ok { b with
              fields := updateFirst001 b.fields (withoutPrefix (oclcStore c)) }) =
          Except.ok ⟨b.library, b.leader, fs⟩
        rw [if_neg hv, if_neg hb]
        exact h1

/-- Witness for `normalize_oclc_frame` at a concrete NYPL record. -/
theorem normalize_oclc_frame_witness :
    ∃ fs, (Bib.mk "nypl" "ldr" [⟨"001", "", "", "ocn123456789", []⟩]
        ).normalize_oclc_control_number =
        Except.ok ⟨"nypl", "ldr", fs⟩ ∧
      fs.length = 1 ∧
      (∀ i, ((fs.get? i).map MarcField.tag =
          ((([⟨"001", "", "", "ocn123456789", []⟩] :
            List MarcField).get? i).map MarcField.tag)) ∧
        ((fs.get? i).map MarcField.ind1 =
          ((([⟨"001", "", "", "ocn123456789", []⟩] :
            List MarcField).get? i).map MarcField.ind1)) ∧
        ((fs.get? i).map MarcField.ind2 =
          ((([⟨"001", "", "", "ocn123456789", []⟩] :
            List MarcField).get? i).map MarcField.ind2)) ∧
        ((fs.get? i).map MarcField.subfields =
          ((([⟨"001", "", "", "ocn123456789", []⟩] :
            List MarcField).get? i).map MarcField.subfields))) ∧
      (∀ i f, ([⟨"001", "", "", "ocn123456789", []⟩] :
          List MarcField).get? i = some f → f.tag ≠ "001" →
        fs.get? i = some f) :=
  normalize_oclc_frame (Bib.mk "nypl" "ldr" [⟨"001", "", "", "ocn123456789", []⟩])
    (Or.inl rfl)

/-! ### Claim C8 : Item and duplicated subfields -/

/-- an item field in which the non-repeatable barcode (`i`) and price
(`p`) subfields each occur twice -/
def cexField8 : MarcField :=
  ⟨"949", " ", "1", "",
    [("i", "33433000000001"), ("i", "33433000000002"),
     ("p", "$5.00"), ("p", "$6.00")]⟩

/-- Claim C8 counterexample: duplicated "non-repeatable" subfields do not
make `Item` construction or attribute access fail — there is no
validation; the attribute simply returns the first occurrence. -/
theorem item_duplicates_cex :
    Item.barcode cexField8 = some "33433000000001" ∧
    Item.price cexField8 = some "$5.00" := by
  constructor <;> decide

/-- Claim C8 (amended): `Item` performs no non-repeatable-subfield
validation: for every field, each attribute (barcode `i`, call number
`a`, price `p`, location `l`, status `s`) returns the first occurrence of
its subfield, whatever duplicates follow. -/
theorem item_first_occurrence (tag i1 i2 dat v : String) (hv : v ≠ "")
    (sf : List (String × String)) :
    Item.barcode ⟨tag, i1, i2, dat, ("i", v) :: sf⟩ = some v ∧
    Item.call_no ⟨tag, i1, i2, dat, ("a", v) :: sf⟩ = some v ∧
    Item.price ⟨tag, i1, i2, dat, ("p", v) :: sf⟩ = some v ∧
    Item.location ⟨tag, i1, i2, dat, ("l", v) :: sf⟩ = some v ∧
    Item.item_status ⟨tag, i1, i2, dat, ("s", v) :: sf⟩ = some v := by
  refine ⟨?_, ?_, ?_, ?_, ?_⟩ <;>
    simp [Item.barcode, Item.call_no, Item.price, Item.location,
      Item.item_status, truthyGet, fieldGet, List.find?, hv]

/-- Witness for `item_first_occurrence` with a duplicated barcode. -/
theorem item_first_occurrence_witness :
    Item.barcode ⟨"949", " ", "1", "", [("i", "b1"), ("i", "b2")]⟩ =
      some "b1" :=
  (item_first_occurrence "949" " " "1" "" "b1" (by decide) [("i", "b2")]).1

/-! ### reader.py : SierraBibReader (claims C1, C2)

`SierraBibReader.__next__` reads a 5-byte length prefix, parses it with
`int()`, reads the promised remainder, checks the final byte is the
record terminator `0x1D`, and hands the framed chunk to the `Bib`
constructor; every failure is stored in `self._current_exception` and the
step returns `None` instead of raising.  In pymarc's exception taxonomy
`TruncatedRecord`, `RecordLengthInvalid` and `EndOfRecordNotFound`
subclass `FatalReaderEror`, which the next call checks and turns into
`StopIteration`; exceptions raised out of `Bib(...)` (malformed leader or
directory) are plain exceptions — not fatal — as the repository's own
`test_SierraBibReader_exception_bib_init` confirms.  The byte source is
an `io.BytesIO` (`read(n)` returns at most `n` bytes; a negative size
reads to EOF).  `Bib` construction from the chunk bytes is the external
record parser and is a parameter `decode` of the step function. -/

inductive ReaderError where
  | truncatedRecord
  | recordLengthInvalid
  | endOfRecordNotFound
  | bibError (msg : String)
  deriving DecidableEq

/-- which exceptions subclass pymarc's `FatalReaderEror` -/
def ReaderError.isFatal : ReaderError → Bool
  | .truncatedRecord => true
  | .recordLengthInvalid => true
  | .endOfRecordNotFound => true
  | .bibError _ => false

/-- the reader's mutable state: the unread byte stream, `_current_chunk`
and `_current_exception` -/
structure ReaderState where
  stream : List Nat
  currentChunk : Option (List Nat)
  currentException : Option ReaderError
  deriving DecidableEq

/-- the outcome of one `__next__` call: `StopIteration`, or a yielded
value (a `Bib`, or `None` when the step recorded an error) -/
inductive StepResult (β : Type) where
  | stop
  | yielded (record : Option β)
  deriving DecidableEq

/-! Python `int(bytes)`: ASCII whitespace around an optional sign and a
digit string, underscores allowed between digits. -/

def isWsByte (b : Nat) : Bool :=
  b = 32 ∨ b = 9 ∨ b = 10 ∨ b = 13 ∨ b = 11 ∨ b = 12

def isDigitByte (b : Nat) : Bool := 48 ≤ b ∧ b ≤ 57

def trimBytes (l : List Nat) : List Nat :=
  ((l.dropWhile isWsByte).reverse.dropWhile isWsByte).reverse

def digTailB : List Nat → Bool
  | [] => true
  | [b] => isDigitByte b
  | b :: b2 :: rest =>
    if b = 95 then isDigitByte b2 && digTailB (b2 :: rest)
    else isDigitByte b && digTailB (b2 :: rest)

def digitPartB : List Nat → Bool
  | [] => false
  | b :: rest => isDigitByte b && digTailB rest

def bytesVal (l : List Nat) : Nat :=
  (l.filter fun b => b ≠ 95).foldl (fun a b => 10 * a + (b - 48)) 0

def pyIntOfBytes (l : List Nat) : Option Int :=
  match trimBytes l with
  | 43 :: r => if digitPartB r then some (bytesVal r : Int) else none
  | 45 :: r => if digitPartB r then some (-(bytesVal r : Int)) else none
  | r => if digitPartB r then some (bytesVal r : Int) else none

/-- `io.BytesIO.read(n)`: the bytes returned (all remaining when `n < 0`). -/
def bioRead (st : List Nat) (n : Int) : List Nat :=
  if n < 0 then st else st.take n.toNat

/-- `io.BytesIO.read(n)`: the bytes left unread. -/
def bioRest (st : List Nat) (n : Int) : List Nat :=
  if n < 0 then [] else st.drop n.toNat

/-- the body of `SierraBibReader.__next__` after the fatal-exception
check: clear the chunk and exception, frame one record, and either yield
a decoded record, yield `None` with the error recorded, or stop at end of
input. -/
def nextStepCore {β : Type} (decode : List Nat → Except String β)
    (st : ReaderState) : StepResult β × ReaderState :=
  if st.stream.take 5 = [] then
    (.stop, ⟨st.stream.drop 5, some (st.stream.take 5), none⟩)
  else if (st.stream.take 5).length < 5 then
    (.yielded none,
      ⟨st.stream.drop 5, some (st.stream.take 5), some .truncatedRecord⟩)
  else
    match pyIntOfBytes (st.stream.take 5) with
    | none =>
      (.yielded none,
        ⟨st.stream.drop 5, some (st.stream.take 5), some .recordLengthInvalid⟩)
    | some length =>
      if ((st.stream.take 5 ++
            bioRead (st.stream.drop 5) (length - 5)).length : Int) < length then
        (.yielded none,
          ⟨bioRest (st.stream.drop 5) (length - 5),
            some (st.stream.take 5 ++ bioRead (st.stream.drop 5) (length - 5)),
            some .truncatedRecord⟩)
      else if (st.stream.take 5 ++
          bioRead (st.stream.drop 5) (length - 5)).getLast? ≠ some 29 then
        (.yielded none,
          ⟨bioRest (st.stream.drop 5) (length - 5),
            some (st.stream.take 5 ++ bioRead (st.stream.drop 5) (length - 5)),
            some .endOfRecordNotFound⟩)
      else
        match decode (st.stream.take 5 ++
            bioRead (st.stream.drop 5) (length - 5)) with
        | .ok b =>
          (.yielded (some b),
            ⟨bioRest (st.stream.drop 5) (length - 5),
              some (st.stream.take 5 ++
                bioRead (st.stream.drop 5) (length - 5)), none⟩)
        | .error m =>
          (.yielded none,
            ⟨bioRest (st.stream.drop 5) (length - 5),
              some (st.stream.take 5 ++
                bioRead (st.stream.drop 5) (length - 5)),
              some (.bibError m)⟩)

/-- `SierraBibReader.__next__`: a pending `FatalReaderEror` raises
`StopIteration` before anything is read. -/
def nextStep {β : Type} (decode : List Nat → Except String β)
    (st : ReaderState) : StepResult β × ReaderState :=
  match st.currentException with
  | some e => if e.isFatal then (.stop, st) else nextStepCore decode st
  | none => nextStepCore decode st

/-- iterate the reader, collecting each step's yielded value and the
error slot after the step, until `StopIteration` (or fuel runs out) -/
def readAll {β : Type} (decode : List Nat → Except String β) :
    Nat → ReaderState → List (Option β × Option ReaderError)
  | 0, _ => []
  | fuel + 1, st =>
    match nextStep decode st with
    | (.stop, _) => []
    | (.yielded r, st') => (r, st'.currentException) :: readAll decode fuel st'

/-- the reader's state over a fresh byte stream -/
def initState (s : List Nat) : ReaderState := ⟨s, none, none⟩

/-- A well-formed MARC21 framing: at least 5 bytes, the first five bytes
parse (as Python `int`) to the record's total length, and the final byte
is the record terminator `0x1D`. -/
def wellFramed (r : List Nat) : Prop :=
  5 ≤ r.length ∧ pyIntOfBytes (r.take 5) = some (r.length : Int) ∧
    r.getLast? = some 29

instance (r : List Nat) : Decidable (wellFramed r) := by
  unfold wellFramed
  infer_instance

theorem nextStep_of_nonfatal {β : Type} (decode : List Nat → Except String β)
    (st : ReaderState)
    (h : ∀ e, st.currentException = some e → e.isFatal = false) :
    nextStep decode st = nextStepCore decode st := by
  obtain ⟨s, ch, exc⟩ := st
  cases exc with
  | none => rfl
  | some e =>
    have hf := h e rfl
    simp [nextStep, hf]

theorem nextStep_of_fatal {β : Type} (decode : List Nat → Except String β)
    (st : ReaderState) (e : ReaderError)
    (h : st.currentException = some e) (hf : e.isFatal = true) :
    nextStep decode st = (.stop, st) := by
  obtain ⟨s, ch, exc⟩ := st
  simp only at h
  subst h
  simp [nextStep, hf]

/-- One reader step over a stream beginning with a well-framed record
consumes exactly that record and yields its decoding. -/
theorem nextStepCore_record {β : Type} (decode : List Nat → Except String β)
    (r F : List Nat) (ch : Option (List Nat)) (exc : Option ReaderError)
    (hw : wellFramed r) :
    nextStepCore decode ⟨r ++ F, ch, exc⟩ =
      (match decode r with
       | .ok b => (.yielded (some b), ⟨F, some r, none⟩)
       | .error m => (.yielded none, ⟨F, some r, some (.bibError m)⟩)) := by
  obtain ⟨hlen, hint, hlast⟩ := hw
  have h5 : (r ++ F).take 5 = r.take 5 := List.take_append_of_le_length hlen
  have hd5 : (r ++ F).drop 5 = r.drop 5 ++ F :=
    List.drop_append_of_le_length hlen
  have hlen5 : (r.take 5).length = 5 := by
    rw [List.length_take]
    omega
  have hne : ¬r.take 5 = [] := by
    intro hx
    rw [hx] at hlen5
    simp at hlen5
  have hdroplen : (r.drop 5).length = r.length - 5 := by
    rw [List.length_drop]
  have hbody : bioRead (r.drop 5 ++ F) ((r.length : Int) - 5) = r.drop 5 := by
    rw [bioRead, if_neg (by omega)]
    have ht : ((r.length : Int) - 5).toNat = r.length - 5 := by omega
    rw [ht, List.take_append_of_le_length (by omega),
      List.take_of_length_le (by omega)]
  have hrest : bioRest (r.drop 5 ++ F) ((r.length : Int) - 5) = F := by
    rw [bioRest, if_neg (by omega)]
    have ht : ((r.length : Int) - 5).toNat = r.length - 5 := by omega
    rw [ht, List.drop_append_of_le_length (by omega),
      List.drop_of_length_le (by omega), List.nil_append]
  have hchunk : r.take 5 ++ r.drop 5 = r := List.take_append_drop 5 r
  simp only [nextStepCore, h5, hd5, hlen5, hint, hbody, hrest, hchunk,
    if_neg hne, hlast]
  have hlt : ¬(5 : Nat) < 5 := by omega
  have hltI : ¬((r.length : Int) < (r.length : Int)) := by omega
  simp [hlt, hltI]

/-- Iterating the reader over the concatenation of well-framed records
produces one step per record: the decoded `Bib` with an empty error slot
for each record the parser accepts, `None` with the parse error recorded
for each record it rejects — never stopping early. -/
theorem readAll_records_aux {β : Type} (decode : List Nat → Except String β) :
    ∀ (records : List (List Nat)) (fuel : Nat) (ch : Option (List Nat))
      (exc : Option ReaderError),
      (∀ r ∈ records, wellFramed r) → records.length < fuel →
      (∀ e, exc = some e → e.isFatal = false) →
      readAll decode fuel ⟨records.flatten, ch, exc⟩ =
        records.map (fun r => match decode r with
          | .ok b => (some b, none)
          | .error m => (none, some (ReaderError.bibError m)))
  | records, 0, _, _, _, hf, _ => absurd hf (by omega)
  | [], fuel + 1, ch, exc, _, _, hexc => by
    rw [readAll, nextStep_of_nonfatal decode _ hexc]
    rw [show nextStepCore decode ⟨List.flatten [], ch, exc⟩ =
      (.stop, ⟨[], some [], none⟩) from rfl]
    rfl
  | r :: rest, fuel + 1, ch, exc, hw, hf, hexc => by
    rw [readAll, nextStep_of_nonfatal decode _ hexc]
    have hwr := hw r (List.mem_cons_self r rest)
    have hstep := nextStepCore_record decode r rest.flatten ch exc hwr
    rw [show (r :: rest).flatten = r ++ rest.flatten from rfl, hstep]
    rcases hdec : decode r with m | b
    · simp only [List.map_cons, hdec]
      rw [readAll_records_aux decode rest fuel (some r)
        (some (.bibError m))
        (fun q hq => hw q (List.mem_cons_of_mem r hq)) (by simp at hf ⊢; omega)
        (fun e he => by
          simp only [Option.some.injEq] at he
          rw [← he]
          rfl)]
    · simp only [List.map_cons, hdec]
      rw [readAll_records_aux decode rest fuel (some r) none
        (fun q hq => hw q (List.mem_cons_of_mem r hq)) (by simp at hf ⊢; omega)
        (fun e he => by simp at he)]

/-- Claim C1: iterating `SierraBibReader` over a stream of `N`
well-framed records yields exactly one step per record and never stops
early: a record whose bytes decode yields its `Bib` with an empty error
slot, and a record whose `Bib` construction fails (e.g. a corrupted
leader) yields `None` with the parse error recorded at that step —
iteration continues through all following records.  In particular, when
all `N` records decode, iteration yields exactly `N` non-error `Bib`s. -/
theorem reader_stream_spec {β : Type} (decode : List Nat → Except String β)
    (records : List (List Nat)) (fuel : Nat)
    (hw : ∀ r ∈ records, wellFramed r) (hf : records.length < fuel) :
    readAll decode fuel (initState records.flatten) =
      records.map (fun r => match decode r with
        | .ok b => (some b, none)
        | .error m => (none, some (ReaderError.bibError m))) ∧
    ((∀ r ∈ records, ∃ b, decode r = .ok b) →
      (readAll decode fuel (initState records.flatten)).length =
        records.length ∧
      ∀ p ∈ readAll decode fuel (initState records.flatten),
        ∃ b, p = (some b, none)) := by
  have hmain : readAll decode fuel (initState records.flatten) =
      records.map (fun r => match decode r with
        | .ok b => (some b, none)
        | .error m => (none, some (ReaderError.bibError m))) := by
    rw [initState]
    exact readAll_records_aux decode records fuel none none hw hf
      (fun e he => by simp at he)
  refine ⟨hmain, fun hok => ⟨by rw [hmain]; simp, fun p hp => ?_⟩⟩
  rw [hmain] at hp
  rcases List.mem_map.mp hp with ⟨r, hr, hpr⟩
  obtain ⟨b, hb⟩ := hok r hr
  rw [hb] at hpr
  exact ⟨b, hpr.symm⟩

/-- Claim C2 (amended): each framing error — truncated record (short
prefix or missing promised bytes), invalid length prefix, missing record
terminator — is recorded in the per-iteration error slot and the step
yields `None` rather than raising out of the iteration; but these errors
are `FatalReaderEror`s, so the next call to `next` raises `StopIteration`
without attempting to read the following records: a framing error
terminates iteration one step later. -/
theorem reader_framing_errors {β : Type} (decode : List Nat → Except String β) :
    (∀ (st : ReaderState) (e : ReaderError), st.currentException = some e →
      e.isFatal = true → nextStep decode st = (.stop, st)) ∧
    (∀ s : List Nat, s ≠ [] → s.length < 5 →
      ∃ st1, nextStep decode (initState s) = (.yielded none, st1) ∧
        st1.currentException = some .truncatedRecord ∧
        nextStep decode st1 = (.stop, st1)) ∧
    (∀ s : List Nat, 5 ≤ s.length → pyIntOfBytes (s.take 5) = none →
      ∃ st1, nextStep decode (initState s) = (.yielded none, st1) ∧
        st1.currentException = some .recordLengthInvalid ∧
        nextStep decode st1 = (.stop, st1)) ∧
    (∀ (s : List Nat) (L : Int), 5 ≤ s.length →
      pyIntOfBytes (s.take 5) = some L → (s.length : Int) < L →
      ∃ st1, nextStep decode (initState s) = (.yielded none, st1) ∧
        st1.currentException = some .truncatedRecord ∧
        nextStep decode st1 = (.stop, st1)) ∧
    (∀ r F : List Nat, 5 ≤ r.length →
      pyIntOfBytes (r.take 5) = some (r.length : Int) →
      r.getLast? ≠ some 29 →
      ∃ st1, nextStep decode (initState (r ++ F)) = (.yielded none, st1) ∧
        st1.currentException = some .endOfRecordNotFound ∧
        nextStep decode st1 = (.stop, st1)) := by
  refine ⟨fun st e he hf => nextStep_of_fatal decode st e he hf,
    fun s hne hlt => ?_, fun s hlen hint => ?_,
    fun s L hlen hint hbig => ?_, fun r F hlen hint hterm => ?_⟩
  · have htake : s.take 5 = s := List.take_of_length_le (by omega)
    have hdrop : s.drop 5 = [] := List.drop_of_length_le (by omega)
    refine ⟨⟨[], some s, some .truncatedRecord⟩, ?_, rfl,
      nextStep_of_fatal decode _ .truncatedRecord rfl rfl⟩
    show nextStepCore decode (initState s) = _
    rw [nextStepCore, initState]
    simp only [htake, hdrop]
    rw [if_neg hne, if_pos hlt]
  · have hlen5 : (s.take 5).length = 5 := by
      rw [List.length_take]
      omega
    have hne5 : ¬s.take 5 = [] := by
      intro hx
      rw [hx] at hlen5
      simp at hlen5
    refine ⟨⟨s.drop 5, some (s.take 5), some .recordLengthInvalid⟩, ?_, rfl,
      nextStep_of_fatal decode _ .recordLengthInvalid rfl rfl⟩
    show nextStepCore decode (initState s) = _
    rw [nextStepCore, initState]
    simp only [hlen5, hint]
    rw [if_neg hne5, if_neg (by omega)]
  · have hlen5 : (s.take 5).length = 5 := by
      rw [List.length_take]
      omega
    have hne5 : ¬s.take 5 = [] := by
      intro hx
      rw [hx] at hlen5
      simp at hlen5
    have hdroplen : (s.drop 5).length = s.length - 5 := by
      rw [List.length_drop]
    have hbody : bioRead (s.drop 5) (L - 5) = s.drop 5 := by
      rw [bioRead]
      by_cases hneg : L - 5 < 0
      · rw [if_pos hneg]
      · rw [if_neg hneg, List.take_of_length_le (by omega)]
    have hrest : bioRest (s.drop 5) (L - 5) = [] := by
      rw [bioRest]
      by_cases hneg : L - 5 < 0
      · rw [if_pos hneg]
      · rw [if_neg hneg, List.drop_of_length_le (by omega)]
    have hchunk : s.take 5 ++ s.drop 5 = s := List.take_append_drop 5 s
    refine ⟨⟨[], some s, some .truncatedRecord⟩, ?_, rfl,
      nextStep_of_fatal decode _ .truncatedRecord rfl rfl⟩
    show nextStepCore decode (initState s) = _
    rw [nextStepCore, initState]
    simp only [hlen5, hint, hbody, hrest, hchunk]
    rw [if_neg hne5, if_neg (by omega), if_pos (by omega)]
  · have h5 : (r ++ F).take 5 = r.take 5 := List.take_append_of_le_length hlen
    have hd5 : (r ++ F).drop 5 = r.drop 5 ++ F :=
      List.drop_append_of_le_length hlen
    have hlen5 : (r.take 5).length = 5 := by
      rw [List.length_take]
      omega
    have hne5 : ¬r.take 5 = [] := by
      intro hx
      rw [hx] at hlen5
      simp at hlen5
    have hdroplen : (r.drop 5).length = r.length - 5 := by
      rw [List.length_drop]
    have hbody : bioRead (r.drop 5 ++ F) ((r.length : Int) - 5) = r.drop 5 := by
      rw [bioRead, if_neg (by omega)]
      have ht : ((r.length : Int) - 5).toNat = r.length - 5 := by omega
      rw [ht, List.take_append_of_le_length (by omega),
        List.take_of_length_le (by omega)]
    have hrest : bioRest (r.drop 5 ++ F) ((r.length : Int) - 5) = F := by
      rw [bioRest, if_neg (by omega)]
      have ht : ((r.length : Int) - 5).toNat = r.length - 5 := by omega
      rw [ht, List.drop_append_of_le_length (by omega),
        List.drop_of_length_le (by omega), List.nil_append]
    have hchunk : r.take 5 ++ r.drop 5 = r := List.take_append_drop 5 r
    refine ⟨⟨F, some r, some .endOfRecordNotFound⟩, ?_, rfl,
      nextStep_of_fatal decode _ .endOfRecordNotFound rfl rfl⟩
    show nextStepCore decode (initState (r ++ F)) = _
    rw [nextStepCore, initState]
    simp only [h5, hd5, hlen5, hint, hbody, hrest, hchunk]
    rw [if_neg hne5, if_neg (by omega), if_neg (by omega), if_pos hterm]

/-- a minimal well-framed 7-byte record `"00007" ++ [x] ++ [0x1D]` -/
def recA (x : Nat) : List Nat := [48, 48, 48, 48, 55, x, 29]

/-- a record parser that rejects exactly `recA 67` (record 3 of the
witness stream) with a leader error and accepts everything else -/
def dec5 : List Nat → Except String (List Nat) :=
  fun c => if c = recA 67 then Except.error "leader invalid" else Except.ok c

/-- a record parser that accepts any chunk as-is -/
def decOk : List Nat → Except String (List Nat) := Except.ok

/-- the C2 counterexample stream: five junk bytes (an unparsable length
prefix) followed by a perfectly well-framed record -/
def cexStream2 : List Nat := [88, 88, 88, 88, 88] ++ recA 65

/-- Claim C2 counterexample: after a framing error, iteration does not
continue.  On a stream whose first five bytes do not parse as a length
but which still contains a complete well-framed record, the first step
records `RecordLengthInvalid` and yields `None`; the second call raises
`StopIteration` with the well-formed record still unread — the full
iteration yields exactly one (error) step, never the following record. -/
theorem reader_framing_stops_cex :
    nextStep decOk (initState cexStream2) =
      (.yielded none,
        ⟨recA 65, some [88, 88, 88, 88, 88], some .recordLengthInvalid⟩) ∧
    nextStep decOk (⟨recA 65, some [88, 88, 88, 88, 88],
        some .recordLengthInvalid⟩ : ReaderState) =
      (.stop, ⟨recA 65, some [88, 88, 88, 88, 88],
        some .recordLengthInvalid⟩) ∧
    wellFramed (recA 65) ∧
    readAll decOk 9 (initState cexStream2) =
      [(none, some ReaderError.recordLengthInvalid)] := by
  refine ⟨by decide, by decide, by decide, by decide⟩

/-- Witness for `reader_framing_errors` on concrete streams: a truncated
prefix, an invalid length prefix, and a missing terminator. -/
theorem reader_framing_errors_witness :
    (∃ st1, nextStep decOk (initState [48, 49]) = (.yielded none, st1) ∧
      st1.currentException = some .truncatedRecord ∧
      nextStep decOk st1 = (.stop, st1)) ∧
    (∃ st1, nextStep decOk (initState cexStream2) = (.yielded none, st1) ∧
      st1.currentException = some .recordLengthInvalid ∧
      nextStep decOk st1 = (.stop, st1)) ∧
    (∃ st1, nextStep decOk (initState [48, 48, 48, 48, 54, 32]) =
        (.yielded none, st1) ∧
      st1.currentException = some .endOfRecordNotFound ∧
      nextStep decOk st1 = (.stop, st1)) :=
  ⟨(reader_framing_errors decOk).2.1 [48, 49] (by decide) (by decide),
   (reader_framing_errors decOk).2.2.1 cexStream2 (by decide) (by decide),
   by
    have := (reader_framing_errors decOk).2.2.2.2 [48, 48, 48, 48, 54, 32] []
      (by decide) (by decide) (by decide)
    simpa using this⟩

/-- Witness for `reader_stream_spec`: a five-record stream whose third
record fails `Bib` construction yields records 1, 2, 4, 5 and records the
error at step 3. -/
theorem reader_stream_spec_witness :
    readAll dec5 6 (initState
        ([recA 65, recA 66, recA 67, recA 68, recA 69].flatten)) =
      [(some (recA 65), none), (some (recA 66), none),
       (none, some (ReaderError.bibError "leader invalid")),
       (some (recA 68), none), (some (recA 69), none)] :=
  ((reader_stream_spec dec5 [recA 65, recA 66, recA 67, recA 68, recA 69] 6
    (by decide) (by decide)).1).trans (by decide)

end BookopsMarc
